import Mathlib

/-!
# ItemFlow: a verification development of `static/js/main.js`

The file embeds the three classes of the client (`ApiService`, `UiManager`, `App`) as
pure Lean functions over an explicit state and proves properties of them.

* Text is a Lean `String` (a sequence of characters). A form field is a store of text:
  jQuery `val(x)` writes the text of `x` and `val()` reads it back; what a browser does
  to line breaks inside a field is not modelled.
* A thrown `Error` is represented by its message, `try`/`catch` by a match on
  `Except`, and `finally` by the call that follows the match.
* A handler is run to its end: the outcome of the call it awaits is an argument. The
  completion of a load of the grid, which happens in a later turn of the event loop, is
  a step of its own (`App.loadSettled`).
* Every call that can be observed from outside (overlay, notifications, modals, calls of
  `ApiService`, loads of the grid) is appended to a log, in order.
-/

namespace ItemFlow

/-! ## Text -/

/-- Substring test (`String.prototype.includes`): `part` occurs contiguously in `msg`. -/
def includes (msg part : String) : Prop := part.data <:+: msg.data

instance (msg part : String) : Decidable (includes msg part) := by
  unfold includes; infer_instance

/-! ## Errors of ApiService -/

/-- The object caught from a rejected `$.ajax` call: the HTTP status code and
`responseJSON?.error`, the error text of the response body when there is one. -/
structure Xhr where
  status : Nat
  responseError : Option String
  deriving DecidableEq, Repr

/-- JavaScript `a || b` on an optional text: the text unless it is missing or empty. -/
def orElse (a : Option String) (b : String) : String :=
  match a with
  | some s => if s = "" then b else s
  | none => b

/-- Message thrown by `createItem` on status 409 (line 75). -/
def createConflictMessage : String :=
  "Ya existe un item con ese nombre. Los nombres deben ser únicos."

/-- Message thrown by `updateItem` on status 409 (line 99). -/
def updateConflictMessage : String :=
  "Ya existe otro item con ese nombre. Los nombres deben ser únicos."

/-- The `catch (xhr)` block of `createItem` (lines 73-79): the message of the thrown error. -/
def createItemError (xhr : Xhr) : String :=
  if xhr.status = 409 then createConflictMessage
  else "Error al crear el item: " ++ orElse xhr.responseError "Error desconocido"

/-- The `catch (xhr)` block of `updateItem` (lines 97-103): the message of the thrown error. -/
def updateItemError (xhr : Xhr) : String :=
  if xhr.status = 409 then updateConflictMessage
  else "Error al actualizar el item: " ++ orElse xhr.responseError "Error desconocido"

/-! ## Numbers and their text (ECMAScript built-ins used by main.js)

`parseFloat`, `Number::toString`, `Number.prototype.toFixed` and `String.prototype.trim`
are built-ins of the language; they are transcribed here from ECMA-262. A finite Number
is named by a decimal `± coeff × 10 ^ exp`, the digits of its text: `parseFloat` and
`Number::toString` work on these digits, and `toFixed` works on the binary64 value that
the decimal denotes (`binary64`), as the language does. Two decimals that binary64 does
not tell apart (more than 17 significant digits) are kept apart here. -/

/-- A Number value: `NaN`, an infinity, or the finite decimal `± coeff × 10 ^ exp`
(`fin true 0 0` is the negative zero). -/
inductive JSNumber where
  | nan : JSNumber
  | inf (neg : Bool) : JSNumber
  | fin (neg : Bool) (coeff : Nat) (exp : Int) : JSNumber
  deriving DecidableEq, Repr

namespace JSNumber

/-- The positive zero. -/
def zero : JSNumber := fin false 0 0

/-- The representation invariant: the coefficient carries no trailing zero and a zero
has exponent 0, so that equal values are equal terms. -/
def Canonical : JSNumber → Prop
  | fin _ c e => if c = 0 then e = 0 else c % 10 ≠ 0
  | _ => True

instance (x : JSNumber) : Decidable x.Canonical := by
  cases x <;> unfold Canonical <;> infer_instance

/-- The rational value of a finite Number. -/
def value : JSNumber → Option ℚ
  | fin neg c e => some ((if neg then -1 else 1) * (c : ℚ) * (10 : ℚ) ^ e)
  | _ => none

/-- JavaScript truthiness of a Number: everything but `NaN`, `+0` and `-0`. -/
def truthy : JSNumber → Bool
  | nan => false
  | inf _ => true
  | fin _ c _ => decide (c ≠ 0)

end JSNumber

/-- The character of a decimal digit. -/
def digitChar (d : Nat) : Char := Char.ofNat (48 + d)

/-- Whether a character is a decimal digit (`DecimalDigit`). -/
def isDigit (c : Char) : Bool := decide (48 ≤ c.toNat) && decide (c.toNat ≤ 57)

/-- The value of a decimal digit character. -/
def digitValue (c : Char) : Nat := c.toNat - 48

/-- Decimal digits of `n`, least significant first; `fuel` bounds the number of digits. -/
def digitsLE : Nat → Nat → List Nat
  | 0, _ => []
  | fuel + 1, n => if n = 0 then [] else (n % 10) :: digitsLE fuel (n / 10)

/-- The digits of the decimal representation of a positive `n`, most significant first
(empty for 0). -/
def decimalDigits (n : Nat) : List Char := ((digitsLE n n).reverse).map digitChar

/-- The mathematical value of a sequence of decimal digits. -/
def parseNat (cs : List Char) : Nat := cs.foldl (fun acc c => acc * 10 + digitValue c) 0

/-- Removes the trailing zeros of a non-zero coefficient, raising the exponent. -/
def stripZeros : Nat → Nat → Int → Nat × Int
  | 0, c, e => (c, e)
  | fuel + 1, c, e => if c % 10 = 0 then stripZeros fuel (c / 10) (e + 1) else (c, e)

/-- The canonical Number of value `± c × 10 ^ e`. -/
def normalize (neg : Bool) (c : Nat) (e : Int) : JSNumber :=
  if c = 0 then JSNumber.fin neg 0 0
  else JSNumber.fin neg (stripZeros c c e).1 (stripZeros c c e).2

/-- ECMA-262 `Number::toString(x, 10)`, steps 5-10, for `x = s × 10 ^ e` with `s > 0`
without trailing zero: with `k` the number of digits of `s` and `n = k + e`, plain digits
when `k ≤ n ≤ 21`, a decimal point inside when `0 < n ≤ 21`, leading `0.` when
`-6 < n ≤ 0`, exponent form otherwise. -/
def positiveToString (s : Nat) (e : Int) : List Char :=
  let ds := decimalDigits s
  let k : Int := ds.length
  let n : Int := k + e
  if k ≤ n ∧ n ≤ 21 then ds ++ List.replicate (n - k).toNat '0'
  else if 0 < n ∧ n ≤ 21 then ds.take n.toNat ++ '.' :: ds.drop n.toNat
  else if -6 < n ∧ n ≤ 0 then '0' :: '.' :: (List.replicate (-n).toNat '0' ++ ds)
  else
    let expPart := 'e' :: (if 0 ≤ n - 1 then '+' else '-') :: decimalDigits (n - 1).natAbs
    if k = 1 then ds ++ expPart
    else ds.take 1 ++ '.' :: (ds.drop 1 ++ expPart)

/-- ECMA-262 `Number::toString(x, 10)`: what `String(x)` and `x + ""` return. -/
def numberToString : JSNumber → String
  | JSNumber.nan => "NaN"
  | JSNumber.inf neg => if neg then "-Infinity" else "Infinity"
  | JSNumber.fin neg c e =>
    if c = 0 then "0"
    else String.mk ((if neg then ['-'] else []) ++
      positiveToString (stripZeros c c e).1 (stripZeros c c e).2)

/-- ECMA-262 `WhiteSpace` and `LineTerminator` code points, the characters that `trim`
and `parseFloat` skip. -/
def isWhiteSpace (c : Char) : Bool :=
  let n := c.toNat
  n = 0x09 || n = 0x0A || n = 0x0B || n = 0x0C || n = 0x0D || n = 0x20 || n = 0xA0 ||
  n = 0x1680 || (decide (0x2000 ≤ n) && decide (n ≤ 0x200A)) || n = 0x2028 || n = 0x2029 ||
  n = 0x202F || n = 0x205F || n = 0x3000 || n = 0xFEFF

/-- `TrimString(s, start)` on characters. -/
def trimStart (cs : List Char) : List Char := cs.dropWhile isWhiteSpace

/-- `TrimString(s, end)` on characters. -/
def trimEnd (cs : List Char) : List Char := (cs.reverse.dropWhile isWhiteSpace).reverse

/-- `String.prototype.trim`. -/
def trim (s : String) : String := String.mk (trimEnd (trimStart s.data))

/-- The value of the longest `ExponentPart` (`e` or `E`, an optional sign, digits) that
starts `cs`, and 0 when none does. -/
def parseExponent (cs : List Char) : Int :=
  match cs with
  | [] => 0
  | c :: rest =>
    if c = 'e' ∨ c = 'E' then
      match rest with
      | '+' :: ds => (parseNat (ds.takeWhile isDigit) : Int)
      | '-' :: ds => - (parseNat (ds.takeWhile isDigit) : Int)
      | ds => (parseNat (ds.takeWhile isDigit) : Int)
    else 0

/-- The Number denoted by the longest prefix of `cs` that is a `StrUnsignedDecimalLiteral`
(`Infinity`, `digits . digits? exponent?`, `. digits exponent?`, `digits exponent?`),
with the given sign; `NaN` when no prefix is one. -/
def parseUnsignedDecimal (neg : Bool) (cs : List Char) : JSNumber :=
  if "Infinity".data.isPrefixOf cs then JSNumber.inf neg
  else
    let ip := cs.takeWhile isDigit
    match cs.dropWhile isDigit with
    | '.' :: r2 =>
      let fp := r2.takeWhile isDigit
      if ip = [] ∧ fp = [] then JSNumber.nan
      else normalize neg (parseNat (ip ++ fp))
        (parseExponent (r2.dropWhile isDigit) - (fp.length : Int))
    | r1 => if ip = [] then JSNumber.nan else normalize neg (parseNat ip) (parseExponent r1)

/-- ECMA-262 `parseFloat(string)`: leading white space is skipped, then the longest
prefix that is a `StrDecimalLiteral` gives the value, `NaN` when there is none. -/
def parseFloat (s : String) : JSNumber :=
  match trimStart s.data with
  | '+' :: cs => parseUnsignedDecimal false cs
  | '-' :: cs => parseUnsignedDecimal true cs
  | cs => parseUnsignedDecimal false cs

/-- Whether a text begins with a `StrUnsignedDecimalLiteral`: with `Infinity`, with a
digit, or with a point followed by a digit. -/
def startsUnsigned (cs : List Char) : Bool :=
  "Infinity".data.isPrefixOf cs ||
  match cs with
  | c :: rest =>
    isDigit c || (c = '.' && match rest with
      | d :: _ => isDigit d
      | [] => false)
  | [] => false

/-- Whether a text, after its leading white space, begins with a `StrDecimalLiteral`: an
optional sign and then the beginning of a `StrUnsignedDecimalLiteral`. -/
def startsNumeral (s : String) : Bool :=
  match trimStart s.data with
  | '+' :: cs => startsUnsigned cs
  | '-' :: cs => startsUnsigned cs
  | cs => startsUnsigned cs

/-- The text `t` is `s` without its leading and trailing white space: `s` is white
space, then `t`, then white space, and `t` neither begins nor ends with white space. -/
def IsTrimOf (t s : String) : Prop :=
  ∃ pre post : List Char, s.data = pre ++ t.data ++ post ∧
    (∀ c ∈ pre, isWhiteSpace c = true) ∧ (∀ c ∈ post, isWhiteSpace c = true) ∧
    (∀ c, t.data.head? = some c → isWhiteSpace c = false) ∧
    (∀ c, t.data.getLast? = some c → isWhiteSpace c = false)

/-- The integer part of the base-2 logarithm of a positive `n`; `fuel` bounds the number
of halvings. -/
def log2Floor : Nat → Nat → Nat
  | 0, _ => 0
  | fuel + 1, n => if n < 2 then 0 else log2Floor fuel (n / 2) + 1

/-- The integer nearest to `a / b`, the even one on a tie (IEEE 754 roundTiesToEven). -/
def roundHalfEven (a b : Nat) : Nat :=
  if 2 * (a % b) < b then a / b
  else if 2 * (a % b) = b then (if (a / b) % 2 = 0 then a / b else a / b + 1)
  else a / b + 1

/-- The decimal `c × 10 ^ e` as a ratio `(a, b)` of natural numbers, `a / b`. -/
def decimalRatio (c : Nat) (e : Int) : Nat × Nat :=
  if 0 ≤ e then (c * 10 ^ e.toNat, 1) else (c, 10 ^ (-e).toNat)

/-- The integer part of the base-2 logarithm of `a / b`, for positive `a` and `b`: the
difference `t` of the logarithms of `a` and `b` when `2 ^ t ≤ a / b`, and `t - 1`
otherwise. -/
def log2Ratio (a b : Nat) : Int :=
  let t : Int := (log2Floor a a : Int) - (log2Floor b b : Int)
  if (if 0 ≤ t then decide (b * 2 ^ t.toNat ≤ a) else decide (b ≤ a * 2 ^ (-t).toNat))
  then t else t - 1

/-- The integer nearest to `a / b / 2 ^ k`, ties to even. -/
def scaledRound (a b : Nat) (k : Int) : Nat :=
  if 0 ≤ k then roundHalfEven a (b * 2 ^ k.toNat) else roundHalfEven (a * 2 ^ (-k).toNat) b

/-- The binary64 (IEEE 754 double precision) value of the decimal `c × 10 ^ e`, as a pair
`(m, k)` of value `m × 2 ^ k`: with `l` the integer part of the base-2 logarithm of the
decimal, `k = max (l - 52) (-1074)` (53 significant bits, subnormal below `2 ^ -1022`) and
`m` is `c × 10 ^ e / 2 ^ k` rounded to the nearest integer, ties to even. This is the
value `ℝ(x)` that `toFixed` works on. Decimals of `2 ^ 1024` and more, which binary64
rounds to `Infinity`, do not stand for finite Numbers and get no special treatment. -/
def binary64 (c : Nat) (e : Int) : Nat × Int :=
  if c = 0 then (0, 0)
  else
    (scaledRound (decimalRatio c e).1 (decimalRatio c e).2
      (max (log2Ratio (decimalRatio c e).1 (decimalRatio c e).2 - 52) (-1074)),
     max (log2Ratio (decimalRatio c e).1 (decimalRatio c e).2 - 52) (-1074))

/-- The rational value of the binary64 Number that the decimal `c × 10 ^ e` denotes. -/
def binaryValue (c : Nat) (e : Int) : ℚ :=
  ((binary64 c e).1 : ℚ) * (2 : ℚ) ^ (binary64 c e).2

/-- The integer `n` for which `n / 100 - m × 2 ^ k` is as close to zero as possible,
the larger one on a tie (`toFixed`, step 10.a with 2 fraction digits). -/
def roundHundredths (m : Nat) (k : Int) : Nat :=
  if 0 ≤ k then 100 * m * 2 ^ k.toNat
  else (200 * m + 2 ^ (-k).toNat) / (2 * 2 ^ (-k).toNat)

/-- Whether `m × 2 ^ k ≥ 10 ^ 21`. -/
def atLeastTenPow21 (m : Nat) (k : Int) : Bool :=
  if 0 ≤ k then decide (10 ^ 21 ≤ m * 2 ^ k.toNat) else decide (10 ^ 21 * 2 ^ (-k).toNat ≤ m)

/-- The digits of `n` padded on the left with zeros to at least three characters
(`toFixed`, steps 10.b-10.c.ii with 2 fraction digits). -/
def paddedDigits (n : Nat) : List Char :=
  let m := if n = 0 then ['0'] else decimalDigits n
  if m.length ≤ 2 then List.replicate (3 - m.length) '0' ++ m else m

/-- ECMA-262 `Number.prototype.toFixed(2)`, on the binary64 value of the Number. -/
def toFixed2 : JSNumber → String
  | JSNumber.nan => "NaN"
  | JSNumber.inf neg => if neg then "-Infinity" else "Infinity"
  | JSNumber.fin neg c e =>
    let sign := if neg ∧ (binary64 c e).1 ≠ 0 then ['-'] else []
    if atLeastTenPow21 (binary64 c e).1 (binary64 c e).2 then
      String.mk sign ++ numberToString (JSNumber.fin false c e)
    else
      let m := paddedDigits (roundHundredths (binary64 c e).1 (binary64 c e).2)
      String.mk (sign ++ m.take (m.length - 2) ++ '.' :: m.drop (m.length - 2))

/-! ## Data -/

/-- The `price` of a row or of a fetched item: `null`, `undefined` (absent) or a Number. -/
inductive PriceData where
  | null : PriceData
  | undefined : PriceData
  | number (x : JSNumber) : PriceData
  deriving DecidableEq, Repr

/-- An item as the service returns it (`id`, `name`, `description`, `price`,
`created_at_formatted`). -/
structure Item where
  id : Nat
  name : String
  description : String
  price : PriceData
  created_at_formatted : String
  deriving DecidableEq, Repr

/-- The object `getFormData` returns and `createItem` / `updateItem` send. -/
structure ItemData where
  name : String
  description : String
  price : JSNumber
  deriving DecidableEq, Repr

/-- The text of the four fields of `#itemForm`. -/
structure Form where
  itemId : String
  itemName : String
  itemDescription : String
  itemPrice : String
  deriving DecidableEq, Repr

/-- The `type` argument of `showNotification`. -/
inductive Severity where
  | success | error | info | warning
  deriving DecidableEq, Repr

/-- The observable calls of a run, in the order they are made: the methods of
`UiManager` and of `ApiService` with their arguments, and `reload`, the start of a load
of the grid (the first load of `initDataTable` or `itemsTable.ajax.reload`). -/
inductive Action where
  | showLoading : Action
  | hideLoading : Action
  | showNotification (message : String) (type : Severity) : Action
  | getItemById (id : Nat) : Action
  | createItem (itemData : ItemData) : Action
  | updateItem (id : String) (itemData : ItemData) : Action
  | deleteItem (id : Nat) : Action
  | showItemModal : Action
  | hideItemModal : Action
  | showDeleteConfirmation : Action
  | hideDeleteConfirmation : Action
  | reload : Action
  deriving DecidableEq, Repr

/-- Whether an action is a call of `ApiService`. -/
def Action.isApiCall : Action → Bool
  | Action.getItemById _ => true
  | Action.createItem _ => true
  | Action.updateItem _ _ => true
  | Action.deleteItem _ => true
  | _ => false

/-- The state of the page and of the `App` object: the form, the loading overlay
(`active` class), the two modals, `deleteItemId`, the number of grid loads in flight and
the log of calls made so far. -/
structure App where
  form : Form
  loading : Bool
  itemModalOpen : Bool
  itemModalLabel : String
  deleteModalOpen : Bool
  deleteItemId : Option Nat
  loadsInFlight : Nat
  log : List Action
  deriving DecidableEq, Repr

/-- The `price` column renderer of `initDataTable` (lines 308-311). `parseFloat(data)`
first converts the Number to its text. -/
def renderPrice (data : PriceData) : String :=
  match data with
  | PriceData.number x => "$" ++ toFixed2 (parseFloat (numberToString x))
  | _ => "$0.00"

/-! ## ApiService (main.js, lines 21-122)

Every method takes the outcome of its `$.ajax` call, `Except.ok response` or
`Except.error xhr`, and returns the response or the message of the thrown `Error`. -/

/-- `getItemById` (lines 47-57). -/
def getItemById (_id : Nat) (ajax : Except Xhr Item) : Except String Item :=
  match ajax with
  | Except.ok response => Except.ok response
  | Except.error _ => Except.error "Error al obtener detalles del item"

/-- `createItem` (lines 64-80). -/
def createItem (_itemData : ItemData) (ajax : Except Xhr Item) : Except String Item :=
  match ajax with
  | Except.ok response => Except.ok response
  | Except.error xhr => Except.error (createItemError xhr)

/-- `updateItem` (lines 88-104). The JSDoc declares `id` a number; the submit handler
passes the text of the id field (line 367), so `id` is a text here. -/
def updateItem (_id : String) (_itemData : ItemData) (ajax : Except Xhr Item) :
    Except String Item :=
  match ajax with
  | Except.ok response => Except.ok response
  | Except.error xhr => Except.error (updateItemError xhr)

/-- `deleteItem` (lines 111-121). -/
def deleteItem (_id : Nat) (ajax : Except Xhr Unit) : Except String Unit :=
  match ajax with
  | Except.ok response => Except.ok response
  | Except.error _ => Except.error "Error al eliminar el item"

/-! ## UiManager (main.js, lines 127-230) -/

namespace App

/-- Appends a call to the log. -/
def record (a : App) (x : Action) : App := { a with log := a.log ++ [x] }

/-- `showLoading` (lines 147-149). -/
def showLoading (a : App) : App := { a.record Action.showLoading with loading := true }

/-- `hideLoading` (lines 151-153). -/
def hideLoading (a : App) : App := { a.record Action.hideLoading with loading := false }

/-- `showNotification` (lines 160-162). -/
def showNotification (a : App) (message : String) (type : Severity) : App :=
  a.record (Action.showNotification message type)

/-- `resetForm` (lines 167-173): the form is reset, the id emptied, the price set to
"0.00". -/
def resetForm (a : App) : App :=
  { a with form := { itemId := "", itemName := "", itemDescription := "",
                     itemPrice := "0.00" } }

/-- `setupCreateForm` (lines 178-182). -/
def setupCreateForm (a : App) : App :=
  { a.resetForm.record Action.showItemModal with
    itemModalLabel := "Nuevo Item", itemModalOpen := true }

/-- JavaScript `price || 0`: the price unless it is `null`, `undefined`, `NaN` or a
zero. -/
def priceOrZero (p : PriceData) : JSNumber :=
  match p with
  | PriceData.number x => if x.truthy then x else JSNumber.zero
  | _ => JSNumber.zero

/-- `setupEditForm` (lines 188-196); jQuery `val(n)` writes the text of a Number `n`. -/
def setupEditForm (a : App) (itemData : Item) : App :=
  { a.resetForm.record Action.showItemModal with
    form := { itemId := numberToString (normalize false itemData.id 0),
              itemName := itemData.name,
              itemDescription := itemData.description,
              itemPrice := numberToString (priceOrZero itemData.price) },
    itemModalLabel := "Editar Item", itemModalOpen := true }

/-- `getFormData` (lines 202-208); `val() || 0` is 0 on the empty text and
`parseFloat(0)` is 0. -/
def getFormData (a : App) : ItemData :=
  { name := trim a.form.itemName,
    description := trim a.form.itemDescription,
    price := if a.form.itemPrice = "" then JSNumber.zero else parseFloat a.form.itemPrice }

/-- `showDeleteConfirmation` (lines 213-215). -/
def showDeleteConfirmation (a : App) : App :=
  { a.record Action.showDeleteConfirmation with deleteModalOpen := true }

/-- `hideDeleteConfirmation` (lines 220-222). -/
def hideDeleteConfirmation (a : App) : App :=
  { a.record Action.hideDeleteConfirmation with deleteModalOpen := false }

/-- `hideItemModal` (lines 227-229). -/
def hideItemModal (a : App) : App :=
  { a.record Action.hideItemModal with itemModalOpen := false }

end App

/-! ## App (main.js, lines 235-431) -/

/-- Whether a text is a plain decimal numeral: an optional `-`, digits, and an optional
fraction of a point and digits (the digits before the point may be missing). -/
def isNumeric (s : String) : Bool :=
  let body := match s.data with
    | '-' :: r => r
    | r => r
  match body.dropWhile isDigit with
  | [] => !(body.takeWhile isDigit).isEmpty
  | c :: fp => c = '.' && !fp.isEmpty && fp.all isDigit

/-- Whether a Number is at least 0.01. -/
def atLeastHundredth : JSNumber → Bool
  | JSNumber.nan => false
  | JSNumber.inf neg => !neg
  | JSNumber.fin neg c e =>
    !neg && (if 0 ≤ e + 2 then decide (0 < c) else decide (10 ^ (-(e + 2)).toNat ≤ c))

/-- Modelled from the spec: the validation engine (`$('#itemForm').valid()`, the jQuery
Validation plugin) is an external library that main.js only configures (`initValidation`,
lines 250-263: `itemName` required, `minlength` 2, `maxlength` 100; `itemPrice` required,
`number`, `min` 0.01). Following the spec, submission is blocked unless the name is
present and 2 to 100 characters long and the price is present, numeric and at least
0.01. -/
def valid (f : Form) : Bool :=
  f.itemName ≠ "" && decide (2 ≤ f.itemName.length) && decide (f.itemName.length ≤ 100) &&
  f.itemPrice ≠ "" && isNumeric f.itemPrice && atLeastHundredth (parseFloat f.itemPrice)

namespace App

/-- The state after the constructor (lines 236-245): no pending delete, and
`initDataTable` has shown the loading overlay and started the first load of the grid. -/
def new : App :=
  { form := { itemId := "", itemName := "", itemDescription := "", itemPrice := "" },
    loading := true, itemModalOpen := false, itemModalLabel := "",
    deleteModalOpen := false, deleteItemId := none, loadsInFlight := 1,
    log := [Action.showLoading, Action.reload] }

/-- `refreshTable` (lines 425-430): shows the overlay and starts a reload of the grid;
the callback runs when the reload has completed (see `loadSettled`). -/
def refreshTable (a : App) : App :=
  { a.showLoading.record Action.reload with loadsInFlight := a.loadsInFlight + 1 }

/-- A load of the grid completes: on success the callback of `reload` (line 428) or
`initComplete` (line 338) hides the overlay; on failure the `error` handler of the
`ajax` option (lines 297-300) notifies and hides the overlay. -/
def loadSettled (a : App) (result : Except String Unit) : App :=
  let a1 := { a with loadsInFlight := a.loadsInFlight - 1 }
  match result with
  | Except.ok _ => a1.hideLoading
  | Except.error thrown =>
    (a1.showNotification ("Error al cargar datos: " ++ thrown) Severity.error).hideLoading

/-- The click handler of `#btnAgregarItem` (lines 348-350). -/
def addClickHandler (a : App) : App := a.setupCreateForm

/-- The submit handler of `#itemForm` (lines 353-381), run to its end; `ajax` is the
outcome of the awaited call. -/
def submitHandler (a : App) (ajax : Except Xhr Item) : App :=
  if !valid a.form then a
  else
    let itemId := a.form.itemId
    let itemData := a.getFormData
    let a1 := a.showLoading
    let a2 :=
      if itemId ≠ "" then
        match updateItem itemId itemData ajax with
        | Except.ok _ =>
          (((a1.record (Action.updateItem itemId itemData)).showNotification
            "Item actualizado exitosamente" Severity.success).hideItemModal).refreshTable
        | Except.error message =>
          (a1.record (Action.updateItem itemId itemData)).showNotification message
            Severity.error
      else
        match createItem itemData ajax with
        | Except.ok _ =>
          (((a1.record (Action.createItem itemData)).showNotification
            "Item creado exitosamente" Severity.success).hideItemModal).refreshTable
        | Except.error message =>
          (a1.record (Action.createItem itemData)).showNotification message Severity.error
    a2.hideLoading

/-- The click handler of `.btn-delete` (lines 384-387). -/
def deleteClickHandler (a : App) (id : Nat) : App :=
  { a with deleteItemId := some id }.showDeleteConfirmation

/-- JavaScript truthiness of `deleteItemId`: neither `null` nor 0. -/
def pendingDelete (a : App) : Option Nat :=
  match a.deleteItemId with
  | some id => if id = 0 then none else some id
  | none => none

/-- The click handler of `#btnConfirmDelete` (lines 390-404), run to its end. -/
def confirmDeleteHandler (a : App) (ajax : Except Xhr Unit) : App :=
  match a.pendingDelete with
  | none => a
  | some id =>
    let a1 := a.showLoading.record (Action.deleteItem id)
    let a2 :=
      match deleteItem id ajax with
      | Except.ok _ =>
        (a1.hideDeleteConfirmation.refreshTable).showNotification
          "Item eliminado exitosamente" Severity.success
      | Except.error message => a1.showNotification message Severity.error
    a2.hideLoading

/-- The click handler of `.btn-edit` (lines 407-419), run to its end. -/
def editClickHandler (a : App) (itemId : Nat) (ajax : Except Xhr Item) : App :=
  let a1 := a.showLoading.record (Action.getItemById itemId)
  let a2 :=
    match getItemById itemId ajax with
    | Except.ok itemData => a1.setupEditForm itemData
    | Except.error message => a1.showNotification message Severity.error
  a2.hideLoading

/-- Modelled from the spec: the cancel control of the confirm modal belongs to the page
markup, which main.js does not contain; cancelling closes the confirm modal and leaves
`deleteItemId` as it is. -/
def cancelDelete (a : App) : App := { a with deleteModalOpen := false }

end App

/-- The events of the delete flow. -/
inductive DeleteEvent where
  | trigger (id : Nat) : DeleteEvent
  | confirm (ajax : Except Xhr Unit) : DeleteEvent
  | cancel : DeleteEvent

/-- The handler of one event of the delete flow. -/
def deleteStep (a : App) (ev : DeleteEvent) : App :=
  match ev with
  | DeleteEvent.trigger id => a.deleteClickHandler id
  | DeleteEvent.confirm ajax => a.confirmDeleteHandler ajax
  | DeleteEvent.cancel => a.cancelDelete

/-- The state after a sequence of events of the delete flow. -/
def deleteRun (a : App) (evs : List DeleteEvent) : App := evs.foldl deleteStep a

/-- The id of the most recent delete-trigger click of a sequence of events, after
`start`. -/
def lastTrigger (start : Option Nat) (evs : List DeleteEvent) : Option Nat :=
  evs.foldl (fun acc ev => match ev with
    | DeleteEvent.trigger id => some id
    | _ => acc) start

/-- In the log `later`, which extends `earlier`, the call `call` was made and
`hideLoading` was called after it. -/
def HidesAfter (earlier later : List Action) (call : Action) : Prop :=
  ∃ pre post, later = earlier ++ pre ++ call :: post ∧ Action.hideLoading ∈ post

/-! ## Lemmas on text -/

theorem includes_append_right (a b : String) : includes (a ++ b) b := by
  unfold includes
  rw [String.data_append]
  exact (List.suffix_append _ _).isInfix

theorem includes_empty (a : String) : includes a "" := by
  unfold includes
  exact List.nil_infix

theorem includes_orElse (e : Option String) (g : String) (p : String) :
    (∀ s, e = some s → includes (p ++ orElse e g) s) ∧
    (e = none → includes (p ++ orElse e g) g) := by
  constructor
  · intro s hs
    subst hs
    unfold orElse
    by_cases h : s = ""
    · subst h; exact includes_empty _
    · simp only [h, if_false]; exact includes_append_right _ _
  · intro h
    subst h
    exact includes_append_right _ _

theorem append_ne_of_head (p s m : String) (c d : Char) (pt mt : List Char)
    (hp : p.data = c :: pt) (hm : m.data = d :: mt) (hcd : c ≠ d) : p ++ s ≠ m := by
  intro h
  have h2 := congrArg String.data h
  rw [String.data_append, hp, hm] at h2
  simp at h2
  exact hcd h2.1

/-! ## Lemmas on digits -/

theorem digitValue_digitChar (d : Nat) (h : d < 10) : digitValue (digitChar d) = d := by
  interval_cases d <;> rfl

theorem isDigit_digitChar (d : Nat) (h : d < 10) : isDigit (digitChar d) = true := by
  interval_cases d <;> rfl

theorem digitsLE_lt (fuel n d : Nat) (h : d ∈ digitsLE fuel n) : d < 10 := by
  induction fuel generalizing n with
  | zero => simp [digitsLE] at h
  | succ f ih =>
    unfold digitsLE at h
    split at h
    · simp at h
    · rcases List.mem_cons.1 h with h1 | h1
      · omega
      · exact ih _ h1

theorem isDigit_of_mem_decimalDigits (n : Nat) (c : Char) (h : c ∈ decimalDigits n) :
    isDigit c = true := by
  unfold decimalDigits at h
  rcases List.mem_map.1 h with ⟨d, hd, rfl⟩
  exact isDigit_digitChar d (digitsLE_lt _ _ d (List.mem_reverse.1 hd))

theorem parseNat_append (a b : List Char) :
    parseNat (a ++ b) = parseNat a * 10 ^ b.length + parseNat b := by
  induction b using List.reverseRecOn with
  | nil => simp [parseNat]
  | append_singleton l c ih =>
    have h1 : parseNat (a ++ (l ++ [c])) = parseNat (a ++ l) * 10 + digitValue c := by
      rw [← List.append_assoc]; simp [parseNat, List.foldl_append]
    have h2 : parseNat (l ++ [c]) = parseNat l * 10 + digitValue c := by
      simp [parseNat, List.foldl_append]
    rw [h1, h2, ih, List.length_append, List.length_singleton, pow_succ]
    ring

theorem parseNat_digitsLE (fuel n : Nat) (h : n ≤ fuel) :
    parseNat (((digitsLE fuel n).reverse).map digitChar) = n := by
  induction fuel generalizing n with
  | zero =>
    have : n = 0 := by omega
    subst this; rfl
  | succ f ih =>
    unfold digitsLE
    split
    · next h0 => subst h0; rfl
    · next h0 =>
      rw [List.reverse_cons, List.map_append, parseNat_append, ih (n / 10) (by omega)]
      simp only [List.map_cons, List.map_nil, List.length_singleton, pow_one]
      have : parseNat [digitChar (n % 10)] = n % 10 := by
        simp [parseNat, digitValue_digitChar (n % 10) (by omega)]
      rw [this]
      omega

theorem parseNat_decimalDigits (n : Nat) : parseNat (decimalDigits n) = n :=
  parseNat_digitsLE n n (le_refl n)

theorem decimalDigits_ne_nil (n : Nat) (h : 0 < n) : decimalDigits n ≠ [] := by
  unfold decimalDigits
  obtain ⟨m, rfl⟩ : ∃ m, n = m + 1 := ⟨n - 1, by omega⟩
  simp [digitsLE]

theorem parseNat_replicate_zero (j : Nat) : parseNat (List.replicate j '0') = 0 := by
  induction j with
  | zero => rfl
  | succ j ih =>
    rw [List.replicate_succ']
    rw [parseNat_append, ih]
    rfl

theorem isDigit_of_mem_replicate_zero (j : Nat) (c : Char)
    (h : c ∈ List.replicate j '0') : isDigit c = true := by
  rw [List.eq_of_mem_replicate h]; rfl

theorem stripZeros_mul_pow (c : Nat) (hc : c % 10 ≠ 0) (j fuel : Nat) (e : Int)
    (h : j ≤ fuel) : stripZeros fuel (c * 10 ^ j) e = (c, e + j) := by
  induction j generalizing fuel e with
  | zero =>
    cases fuel with
    | zero => simp [stripZeros]
    | succ f => simp [stripZeros, hc]
  | succ j ih =>
    obtain ⟨f, rfl⟩ : ∃ f, fuel = f + 1 := ⟨fuel - 1, by omega⟩
    have h1 : c * 10 ^ (j + 1) % 10 = 0 := by
      rw [pow_succ, ← mul_assoc]; exact Nat.mul_mod_left _ _
    have h2 : c * 10 ^ (j + 1) / 10 = c * 10 ^ j := by
      rw [pow_succ, ← mul_assoc]; exact Nat.mul_div_cancel _ (by norm_num)
    unfold stripZeros
    rw [if_pos h1, h2, ih f (e + 1) (by omega)]
    congr 1
    push_cast
    ring

theorem normalize_mul_pow (neg : Bool) (c : Nat) (hc : c % 10 ≠ 0) (j : Nat) (e : Int) :
    normalize neg (c * 10 ^ j) e = JSNumber.fin neg c (e + j) := by
  have hc0 : 0 < c := Nat.pos_of_ne_zero (fun h => hc (by simp [h]))
  have hpos : 0 < c * 10 ^ j := Nat.mul_pos hc0 (by positivity)
  have hj : j ≤ c * 10 ^ j :=
    le_trans (le_of_lt (Nat.lt_pow_self (by norm_num : 1 < 10) j))
      (Nat.le_mul_of_pos_left _ hc0)
  unfold normalize
  rw [if_neg (by omega), stripZeros_mul_pow c hc j _ e hj]

theorem normalize_canonical (neg : Bool) (c : Nat) (hc : c % 10 ≠ 0) (e : Int) :
    normalize neg c e = JSNumber.fin neg c e := by
  have := normalize_mul_pow neg c hc 0 e
  simpa using this

theorem stripZeros_canonical (c : Nat) (hc : c % 10 ≠ 0) (e : Int) :
    stripZeros c c e = (c, e) := by
  have := stripZeros_mul_pow c hc 0 c e (Nat.zero_le _)
  simpa using this

/-! ## Lemmas on the parser -/

theorem span_digits (ds rest : List Char) (hd : ∀ c ∈ ds, isDigit c = true)
    (hr : rest.takeWhile isDigit = []) :
    (ds ++ rest).takeWhile isDigit = ds ∧ (ds ++ rest).dropWhile isDigit = rest := by
  constructor
  · rw [List.takeWhile_append, List.takeWhile_eq_self_iff.2 hd, if_pos rfl, hr,
      List.append_nil]
  · rw [List.dropWhile_append_of_pos hd]
    have := List.takeWhile_append_dropWhile isDigit rest
    rw [hr] at this
    simpa using this

theorem not_infinity_prefix (cs : List Char) (h : ∀ t, cs ≠ 'I' :: t) :
    "Infinity".data.isPrefixOf cs = false := by
  cases cs with
  | nil => rfl
  | cons c t =>
    have hc : c ≠ 'I' := fun hc => h t (by rw [hc])
    show (('I' == c) && _) = false
    have : ('I' == c) = false := by
      simp only [beq_eq_false_iff_ne, ne_eq]
      exact fun h2 => hc h2.symm
    rw [this]; rfl

theorem head_ne_of_isDigit (c : Char) (t cs : List Char) (h : isDigit c = true) :
    c :: cs ≠ 'I' :: t ∧ c :: cs ≠ '.' :: t := by
  constructor
  · intro h2
    have : c = 'I' := (List.cons.inj h2).1
    subst this
    exact absurd h (by decide)
  · intro h2
    have : c = '.' := (List.cons.inj h2).1
    subst this
    exact absurd h (by decide)

theorem parseUnsignedDecimal_int (neg : Bool) (ip r1 : List Char)
    (hip : ∀ c ∈ ip, isDigit c = true) (hne : ip ≠ [])
    (hr : r1.takeWhile isDigit = []) (hdot : ∀ t, r1 ≠ '.' :: t) :
    parseUnsignedDecimal neg (ip ++ r1) =
      normalize neg (parseNat ip) (parseExponent r1) := by
  obtain ⟨c, t, rfl⟩ := List.exists_cons_of_ne_nil hne
  have hI : "Infinity".data.isPrefixOf (c :: t ++ r1) = false :=
    not_infinity_prefix _ (fun u => (head_ne_of_isDigit c u _ (hip c (by simp))).1)
  obtain ⟨h1, h2⟩ := span_digits (c :: t) r1 hip hr
  unfold parseUnsignedDecimal
  simp only [hI, Bool.false_eq_true, if_false, h1, h2]
  simp

theorem parseUnsignedDecimal_frac (neg : Bool) (ip fp r3 : List Char)
    (hip : ∀ c ∈ ip, isDigit c = true) (hfp : ∀ c ∈ fp, isDigit c = true)
    (hne : ip ≠ [] ∨ fp ≠ []) (hr : r3.takeWhile isDigit = []) :
    parseUnsignedDecimal neg (ip ++ '.' :: (fp ++ r3)) =
      normalize neg (parseNat (ip ++ fp)) (parseExponent r3 - (fp.length : Int)) := by
  have hI : "Infinity".data.isPrefixOf (ip ++ '.' :: (fp ++ r3)) = false := by
    apply not_infinity_prefix
    intro u
    cases ip with
    | nil => intro h; exact absurd (List.cons.inj h).1 (by decide)
    | cons c t => exact (head_ne_of_isDigit c u _ (hip c (by simp))).1
  obtain ⟨h1, h2⟩ := span_digits ip ('.' :: (fp ++ r3)) hip rfl
  obtain ⟨h3, h4⟩ := span_digits fp r3 hfp hr
  unfold parseUnsignedDecimal
  simp only [hI, Bool.false_eq_true, if_false, h1, h2, h3, h4]
  have hne2 : ¬ (ip = [] ∧ fp = []) := by
    rintro ⟨a, b⟩
    rcases hne with h | h
    · exact h a
    · exact h b
  simp [hne2]

theorem takeWhile_decimalDigits (n : Nat) :
    (decimalDigits n).takeWhile isDigit = decimalDigits n :=
  List.takeWhile_eq_self_iff.2 (isDigit_of_mem_decimalDigits n)

theorem parseExponent_expPart (m : Int) :
    parseExponent ('e' :: (if 0 ≤ m then '+' else '-') :: decimalDigits m.natAbs) = m := by
  by_cases h : 0 ≤ m
  · simp only [h, if_true, parseExponent, true_or, takeWhile_decimalDigits,
      parseNat_decimalDigits]
    omega
  · simp only [h, if_false, parseExponent, true_or, if_true, takeWhile_decimalDigits,
      parseNat_decimalDigits]
    omega

/-- Reading back the text of a positive decimal without trailing zero gives the decimal. -/
theorem parseUnsignedDecimal_positiveToString (neg : Bool) (c : Nat) (hc : c % 10 ≠ 0)
    (e : Int) : parseUnsignedDecimal neg (positiveToString c e) = JSNumber.fin neg c e := by
  have hc0 : 0 < c := Nat.pos_of_ne_zero (fun h => hc (by simp [h]))
  have hds := isDigit_of_mem_decimalDigits c
  have hne := decimalDigits_ne_nil c hc0
  have hval := parseNat_decimalDigits c
  have hlen : 0 < (decimalDigits c).length := List.length_pos.2 hne
  unfold positiveToString
  simp only []
  by_cases h1 : ((decimalDigits c).length : Int) ≤ (decimalDigits c).length + e ∧
      ((decimalDigits c).length : Int) + e ≤ 21
  · -- plain digits followed by zeros
    rw [if_pos h1]
    have h := parseUnsignedDecimal_int neg
      (decimalDigits c ++ List.replicate (((decimalDigits c).length : Int) + e -
        (decimalDigits c).length).toNat '0') [] (by
        intro x hx
        rcases List.mem_append.1 hx with hx | hx
        · exact hds x hx
        · exact isDigit_of_mem_replicate_zero _ x hx) (by simp [hne]) rfl (by simp)
    rw [List.append_nil] at h
    rw [h, parseNat_append, parseNat_replicate_zero, hval, List.length_replicate,
      Nat.add_zero, normalize_mul_pow neg c hc]
    congr 1
    simp only [parseExponent]
    omega
  rw [if_neg h1]
  by_cases h2 : 0 < ((decimalDigits c).length : Int) + e ∧
      ((decimalDigits c).length : Int) + e ≤ 21
  · -- a decimal point inside the digits
    rw [if_pos h2]
    have h := parseUnsignedDecimal_frac neg
      ((decimalDigits c).take (((decimalDigits c).length : Int) + e).toNat)
      ((decimalDigits c).drop (((decimalDigits c).length : Int) + e).toNat) []
      (fun x hx => hds x (List.mem_of_mem_take hx))
      (fun x hx => hds x (List.mem_of_mem_drop hx))
      (Or.inl (by
        intro h0
        have := congrArg List.length h0
        simp only [List.length_take, List.length_nil] at this
        omega)) rfl
    rw [List.append_nil] at h
    rw [h, List.take_append_drop, hval, normalize_canonical neg c hc]
    congr 1
    simp only [parseExponent, List.length_drop]
    omega
  rw [if_neg h2]
  by_cases h3 : -6 < ((decimalDigits c).length : Int) + e ∧
      ((decimalDigits c).length : Int) + e ≤ 0
  · -- leading zero, decimal point, zeros, digits
    rw [if_pos h3]
    have h := parseUnsignedDecimal_frac neg ['0']
      (List.replicate (-(((decimalDigits c).length : Int) + e)).toNat '0' ++ decimalDigits c) []
      (by intro x hx; rw [List.mem_singleton.1 hx]; rfl)
      (by
        intro x hx
        rcases List.mem_append.1 hx with hx | hx
        · exact isDigit_of_mem_replicate_zero _ x hx
        · exact hds x hx) (Or.inl (by simp)) rfl
    rw [List.append_nil] at h
    have hp : parseNat (['0'] ++ (List.replicate
        (-(((decimalDigits c).length : Int) + e)).toNat '0' ++ decimalDigits c)) = c := by
      rw [parseNat_append, parseNat_append, parseNat_replicate_zero, hval]
      simp [parseNat, digitValue]
    show parseUnsignedDecimal neg (['0'] ++ '.' :: _) = _
    rw [h, hp, normalize_canonical neg c hc]
    congr 1
    simp only [parseExponent, List.length_append, List.length_replicate]
    omega
  rw [if_neg h3]
  by_cases h4 : ((decimalDigits c).length : Int) = 1
  · -- one digit and an exponent
    rw [if_pos h4]
    have h := parseUnsignedDecimal_int neg (decimalDigits c)
      ('e' :: (if 0 ≤ ((decimalDigits c).length : Int) + e - 1 then '+' else '-') ::
        decimalDigits (((decimalDigits c).length : Int) + e - 1).natAbs)
      hds hne rfl (by intro t ht; exact absurd (List.cons.inj ht).1 (by decide))
    rw [h, hval, parseExponent_expPart, normalize_canonical neg c hc]
    congr 1
    omega
  · -- one digit, decimal point, digits and an exponent
    rw [if_neg h4]
    have h := parseUnsignedDecimal_frac neg ((decimalDigits c).take 1)
      ((decimalDigits c).drop 1)
      ('e' :: (if 0 ≤ ((decimalDigits c).length : Int) + e - 1 then '+' else '-') ::
        decimalDigits (((decimalDigits c).length : Int) + e - 1).natAbs)
      (fun x hx => hds x (List.mem_of_mem_take hx))
      (fun x hx => hds x (List.mem_of_mem_drop hx))
      (Or.inl (by
        intro h0
        have := congrArg List.length h0
        simp only [List.length_take, List.length_nil] at this
        omega)) rfl
    rw [h, List.take_append_drop, hval, parseExponent_expPart,
      normalize_canonical neg c hc]
    congr 1
    simp only [List.length_drop]
    omega

theorem not_isWhiteSpace_of_isDigit (c : Char) (h : isDigit c = true) :
    isWhiteSpace c = false := by
  unfold isDigit at h
  unfold isWhiteSpace
  simp only [Bool.and_eq_true, decide_eq_true_eq] at h
  simp only [Bool.or_eq_false_iff, Bool.and_eq_false_imp, decide_eq_false_iff_not,
    decide_eq_true_eq]
  omega

theorem positiveToString_head (c : Nat) (hc : 0 < c) (e : Int) :
    ∃ d t, positiveToString c e = d :: t ∧ isDigit d = true := by
  have hds := isDigit_of_mem_decimalDigits c
  obtain ⟨d, t, hdt⟩ := List.exists_cons_of_ne_nil (decimalDigits_ne_nil c hc)
  have hd : isDigit d = true := hds d (by rw [hdt]; simp)
  unfold positiveToString
  simp only []
  rw [hdt]
  by_cases h1 : (((d :: t).length : Int) ≤ (d :: t).length + e ∧
      ((d :: t).length : Int) + e ≤ 21)
  · rw [if_pos h1]; exact ⟨d, _, rfl, hd⟩
  rw [if_neg h1]
  by_cases h2 : 0 < ((d :: t).length : Int) + e ∧ ((d :: t).length : Int) + e ≤ 21
  · rw [if_pos h2]
    obtain ⟨m, hm⟩ : ∃ m, (((d :: t).length : Int) + e).toNat = m + 1 :=
      ⟨(((d :: t).length : Int) + e).toNat - 1, by omega⟩
    rw [hm]
    exact ⟨d, _, rfl, hd⟩
  rw [if_neg h2]
  by_cases h3 : -6 < ((d :: t).length : Int) + e ∧ ((d :: t).length : Int) + e ≤ 0
  · rw [if_pos h3]; exact ⟨'0', _, rfl, rfl⟩
  rw [if_neg h3]
  by_cases h4 : ((d :: t).length : Int) = 1
  · rw [if_pos h4]; exact ⟨d, _, rfl, hd⟩
  · rw [if_neg h4]; exact ⟨d, _, rfl, hd⟩

theorem parseFloat_of_digit_head (d : Char) (t : List Char) (hd : isDigit d = true) :
    parseFloat (String.mk (d :: t)) = parseUnsignedDecimal false (d :: t) := by
  have hw : isWhiteSpace d = false := not_isWhiteSpace_of_isDigit d hd
  have hplus : d ≠ '+' := fun h => by subst h; exact absurd hd (by decide)
  have hminus : d ≠ '-' := fun h => by subst h; exact absurd hd (by decide)
  unfold parseFloat trimStart
  simp only [List.dropWhile_cons, hw, Bool.false_eq_true, if_false]
  split
  · next cs heq => exact absurd (List.cons.inj heq).1 hplus
  · next cs heq => exact absurd (List.cons.inj heq).1 hminus
  · rfl

theorem parseFloat_minus (cs : List Char) :
    parseFloat (String.mk ('-' :: cs)) = parseUnsignedDecimal true cs := by
  unfold parseFloat trimStart
  rfl

/-- Reading back the text of a Number gives the Number: `parseFloat(String(x)) = x` for
every canonical `x` but the negative zero (whose text is "0"). -/
theorem parseFloat_numberToString (x : JSNumber) (hx : x.Canonical)
    (hz : x ≠ JSNumber.fin true 0 0) : parseFloat (numberToString x) = x := by
  cases x with
  | nan => rfl
  | inf neg => cases neg <;> rfl
  | fin neg c e =>
    simp only [JSNumber.Canonical] at hx
    by_cases h0 : c = 0
    · subst h0
      simp only [if_true] at hx
      subst hx
      cases neg
      · rfl
      · exact absurd rfl hz
    · rw [if_neg h0] at hx
      simp only [numberToString, if_neg h0, stripZeros_canonical c hx e]
      cases neg
      · simp only [Bool.false_eq_true, if_false, List.nil_append]
        obtain ⟨d, t, hdt, hd⟩ := positiveToString_head c (Nat.pos_of_ne_zero h0) e
        rw [hdt, parseFloat_of_digit_head d t hd, ← hdt]
        exact parseUnsignedDecimal_positiveToString false c hx e
      · simp only [if_true, List.singleton_append]
        rw [parseFloat_minus]
        exact parseUnsignedDecimal_positiveToString true c hx e

/-! ## Lemmas on `trim` and on `NaN` -/

theorem isTrimOf_trim (s : String) : IsTrimOf (trim s) s := by
  refine ⟨s.data.takeWhile isWhiteSpace,
    ((s.data.dropWhile isWhiteSpace).reverse.takeWhile isWhiteSpace).reverse, ?_, ?_, ?_, ?_, ?_⟩
  · show s.data = _ ++ trimEnd (trimStart s.data) ++ _
    unfold trimEnd trimStart
    rw [List.append_assoc, ← List.reverse_append, List.takeWhile_append_dropWhile,
      List.reverse_reverse, List.takeWhile_append_dropWhile]
  · intro c hc
    exact List.mem_takeWhile_imp hc
  · intro c hc
    exact List.mem_takeWhile_imp (List.mem_reverse.1 hc)
  · intro c hc
    have hc2 : (trimEnd (trimStart s.data)).head? = some c := hc
    unfold trimEnd trimStart at hc2
    have hsplit : s.data.dropWhile isWhiteSpace =
        ((s.data.dropWhile isWhiteSpace).reverse.dropWhile isWhiteSpace).reverse ++
        ((s.data.dropWhile isWhiteSpace).reverse.takeWhile isWhiteSpace).reverse := by
      rw [← List.reverse_append, List.takeWhile_append_dropWhile, List.reverse_reverse]
    have hhead : (s.data.dropWhile isWhiteSpace).head? = some c := by
      rw [hsplit, List.head?_append, hc2]; rfl
    cases hd : s.data.dropWhile isWhiteSpace with
    | nil => rw [hd] at hhead; simp at hhead
    | cons x xs =>
      rw [hd] at hhead
      simp only [List.head?_cons, Option.some.injEq] at hhead
      subst hhead
      have := List.head_dropWhile_not isWhiteSpace s.data (by rw [hd]; simp)
      simp only [hd, List.head_cons] at this
      simpa using this
  · intro c hc
    have hc2 : (trimEnd (trimStart s.data)).getLast? = some c := hc
    unfold trimEnd at hc2
    rw [List.getLast?_reverse] at hc2
    cases hd : (trimStart s.data).reverse.dropWhile isWhiteSpace with
    | nil => rw [hd] at hc2; simp at hc2
    | cons x xs =>
      rw [hd] at hc2
      simp only [List.head?_cons, Option.some.injEq] at hc2
      subst hc2
      have := List.head_dropWhile_not isWhiteSpace (trimStart s.data).reverse
        (by rw [hd]; simp)
      simp only [hd, List.head_cons] at this
      simpa using this

theorem normalize_ne_nan (neg : Bool) (c : Nat) (e : Int) : normalize neg c e ≠ JSNumber.nan := by
  unfold normalize
  split <;> simp

theorem parseUnsignedDecimal_eq_nan (neg : Bool) (cs : List Char) :
    parseUnsignedDecimal neg cs = JSNumber.nan ↔ startsUnsigned cs = false := by
  unfold parseUnsignedDecimal startsUnsigned
  by_cases hI : "Infinity".data.isPrefixOf cs = true
  · simp [hI]
  · have hI2 : "Infinity".data.isPrefixOf cs = false := Bool.eq_false_iff.2 hI
    simp only [hI2, Bool.false_eq_true, if_false, Bool.false_or]
    cases cs with
    | nil => simp
    | cons c rest =>
      by_cases hc : isDigit c = true
      · have h1 : (c :: rest).takeWhile isDigit = c :: rest.takeWhile isDigit := by
          simp [List.takeWhile_cons, hc]
        have h2 : (c :: rest).dropWhile isDigit = rest.dropWhile isDigit := by
          simp [List.dropWhile_cons, hc]
        simp only [h1, h2, hc, Bool.true_or]
        split <;> simp [normalize_ne_nan]
      · have hc2 : isDigit c = false := by simpa using hc
        have h1 : (c :: rest).takeWhile isDigit = [] := by
          simp [List.takeWhile_cons, hc2]
        have h2 : (c :: rest).dropWhile isDigit = c :: rest := by
          simp [List.dropWhile_cons, hc2]
        simp only [h1, h2, hc2, Bool.false_or]
        by_cases hdot : c = '.'
        · subst hdot
          cases rest with
          | nil => simp
          | cons d r =>
            by_cases hd : isDigit d = true
            · simp [List.takeWhile_cons, hd, normalize_ne_nan]
            · have hd2 : isDigit d = false := by simpa using hd
              simp [List.takeWhile_cons, hd2]
        · split
          · next r2 heq => exact absurd (List.cons.inj heq).1 hdot
          · simp [hdot]

theorem parseFloat_eq_nan (s : String) :
    parseFloat s = JSNumber.nan ↔ startsNumeral s = false := by
  unfold parseFloat startsNumeral
  split <;> exact parseUnsignedDecimal_eq_nan _ _

theorem trim_eq_self (t : String)
    (hh : ∀ c, t.data.head? = some c → isWhiteSpace c = false)
    (hl : ∀ c, t.data.getLast? = some c → isWhiteSpace c = false) : trim t = t := by
  have h1 : trimStart t.data = t.data := by
    unfold trimStart
    cases hd : t.data with
    | nil => rfl
    | cons x xs =>
      have := hh x (by rw [hd]; rfl)
      simp [List.dropWhile_cons, this]
  have h2 : trimEnd t.data = t.data := by
    unfold trimEnd
    cases hd : t.data.reverse with
    | nil =>
      have : t.data = [] := by simpa using hd
      rw [this]; rfl
    | cons x xs =>
      have hx : t.data.getLast? = some x := by
        rw [← List.reverse_reverse t.data, List.getLast?_reverse, hd]; rfl
      have := hl x hx
      rw [show List.dropWhile isWhiteSpace (x :: xs) = x :: xs by
        simp [List.dropWhile_cons, this], ← hd, List.reverse_reverse]
  show String.mk (trimEnd (trimStart t.data)) = t
  rw [h1, h2]

theorem trim_trim (s : String) : trim (trim s) = trim s := by
  obtain ⟨_, _, _, _, _, hh, hl⟩ := isTrimOf_trim s
  exact trim_eq_self _ hh hl

theorem positive_of_value (x : JSNumber) (q : ℚ) (h : x.value = some q) (hq : 0 < q) :
    ∃ c e, x = JSNumber.fin false c e ∧ c ≠ 0 := by
  cases x with
  | nan => simp [JSNumber.value] at h
  | inf neg => simp [JSNumber.value] at h
  | fin neg c e =>
    simp only [JSNumber.value, Option.some.injEq] at h
    have h1 : (0 : ℚ) < (10 : ℚ) ^ e := by positivity
    have h2 : (0 : ℚ) ≤ (c : ℚ) := by positivity
    cases neg with
    | true =>
      exfalso
      simp only [if_true] at h
      nlinarith [mul_nonneg h2 h1.le]
    | false =>
      refine ⟨c, e, rfl, ?_⟩
      intro hc
      subst hc
      simp at h
      linarith

/-! ## Lemmas on `toFixed` -/

theorem zpow_ten_of_nonneg (e : Int) (h : 0 ≤ e) :
    (10 : ℚ) ^ e = ((10 ^ e.toNat : Nat) : ℚ) := by
  obtain ⟨n, rfl⟩ := Int.eq_ofNat_of_zero_le h
  simp

theorem zpow_ten_of_neg (e : Int) (h : e < 0) :
    (10 : ℚ) ^ e = 1 / ((10 ^ (-e).toNat : Nat) : ℚ) := by
  obtain ⟨n, hn⟩ := Int.eq_ofNat_of_zero_le (by omega : 0 ≤ -e)
  have he : e = -(n : Int) := by omega
  subst he
  simp

theorem zpow_two_of_nonneg (k : Int) (h : 0 ≤ k) :
    (2 : ℚ) ^ k = ((2 ^ k.toNat : Nat) : ℚ) := by
  obtain ⟨n, rfl⟩ := Int.eq_ofNat_of_zero_le h
  simp

theorem zpow_two_of_neg (k : Int) (h : k < 0) :
    (2 : ℚ) ^ k = 1 / ((2 ^ (-k).toNat : Nat) : ℚ) := by
  obtain ⟨n, hn⟩ := Int.eq_ofNat_of_zero_le (by omega : 0 ≤ -k)
  have hk : k = -(n : Int) := by omega
  subst hk
  simp

/-- `roundHundredths m k` is the integer nearest to `100 × m × 2 ^ k`, the larger one
on a tie. -/
theorem roundHundredths_nearest (m : Nat) (k : Int) :
    ((roundHundredths m k : Nat) : ℚ) - 1 / 2 ≤ 100 * ((m : ℚ) * (2 : ℚ) ^ k) ∧
    100 * ((m : ℚ) * (2 : ℚ) ^ k) < ((roundHundredths m k : Nat) : ℚ) + 1 / 2 := by
  unfold roundHundredths
  by_cases h : 0 ≤ k
  · rw [if_pos h, zpow_two_of_nonneg _ h]
    push_cast
    constructor <;> linarith
  · rw [if_neg h, zpow_two_of_neg _ (by omega)]
    have hD : 0 < 2 ^ (-k).toNat := by positivity
    generalize 2 ^ (-k).toNat = D at hD
    have h1 : (200 * m + D) / (2 * D) * (2 * D) ≤ 200 * m + D := Nat.div_mul_le_self _ _
    have h2 : 200 * m + D < (200 * m + D) / (2 * D) * (2 * D) + 2 * D :=
      Nat.lt_div_mul_add (by omega)
    generalize (200 * m + D) / (2 * D) = N at h1 h2
    have hDq : (0 : ℚ) < (D : ℚ) := by exact_mod_cast hD
    have h1q : (N : ℚ) * (2 * D) ≤ 200 * m + D := by exact_mod_cast h1
    have h2q : (200 * m + D : ℚ) < N * (2 * D) + 2 * D := by exact_mod_cast h2
    have hx : 100 * ((m : ℚ) * (1 / (D : ℚ))) = (100 * m : ℚ) / D := by ring
    rw [hx]
    constructor
    · rw [le_div_iff₀ hDq]
      nlinarith
    · rw [div_lt_iff₀ hDq]
      nlinarith

theorem atLeastTenPow21_iff (m : Nat) (k : Int) :
    atLeastTenPow21 m k = true ↔ (10 : ℚ) ^ 21 ≤ (m : ℚ) * (2 : ℚ) ^ k := by
  unfold atLeastTenPow21
  by_cases h : 0 ≤ k
  · rw [if_pos h, zpow_two_of_nonneg _ h, decide_eq_true_iff]
    constructor
    · intro h1; exact_mod_cast h1
    · intro h1; exact_mod_cast h1
  · rw [if_neg h, zpow_two_of_neg _ (by omega), decide_eq_true_iff]
    have hD : 0 < 2 ^ (-k).toNat := by positivity
    generalize 2 ^ (-k).toNat = D at hD
    have hDq : (0 : ℚ) < (D : ℚ) := by exact_mod_cast hD
    rw [mul_one_div, le_div_iff₀ hDq]
    constructor
    · intro h1; exact_mod_cast h1
    · intro h1; exact_mod_cast h1

/-! ## Lemmas on binary64 -/

theorem roundHalfEven_near (a b : Nat) (hb : 0 < b) :
    2 * (roundHalfEven a b * b) ≤ 2 * a + b ∧ 2 * a ≤ 2 * (roundHalfEven a b * b) + b := by
  have h1 : b * (a / b) + a % b = a := Nat.div_add_mod a b
  have h2 : a % b < b := Nat.mod_lt a hb
  have h3 : (a / b + 1) * b = a / b * b + b := by ring
  have h4 : b * (a / b) = a / b * b := Nat.mul_comm _ _
  unfold roundHalfEven
  split_ifs <;> constructor <;> omega

theorem log2Floor_spec (fuel n : Nat) (h1 : 1 ≤ n) (hf : n ≤ fuel) :
    2 ^ log2Floor fuel n ≤ n ∧ n < 2 ^ (log2Floor fuel n + 1) := by
  induction fuel generalizing n with
  | zero => omega
  | succ f ih =>
    unfold log2Floor
    by_cases h : n < 2
    · rw [if_pos h]
      constructor
      · simpa using h1
      · simpa using h
    · rw [if_neg h]
      obtain ⟨ha, hb⟩ := ih (n / 2) (by omega) (by omega)
      rw [pow_succ, pow_succ]
      rw [pow_succ] at hb
      constructor <;> omega

theorem decimalRatio_spec (c : Nat) (e : Int) (hc : c ≠ 0) :
    0 < (decimalRatio c e).1 ∧ 0 < (decimalRatio c e).2 ∧
    ((decimalRatio c e).1 : ℚ) / ((decimalRatio c e).2 : ℚ) = (c : ℚ) * (10 : ℚ) ^ e := by
  unfold decimalRatio
  by_cases h : 0 ≤ e
  · rw [if_pos h, zpow_ten_of_nonneg e h]
    refine ⟨Nat.mul_pos (Nat.pos_of_ne_zero hc) (by positivity), by norm_num, ?_⟩
    push_cast
    simp
  · rw [if_neg h, zpow_ten_of_neg e (by omega)]
    refine ⟨Nat.pos_of_ne_zero hc, by positivity, ?_⟩
    simp only []
    rw [mul_one_div]

theorem log2Ratio_spec (a b : Nat) (ha : 0 < a) (hb : 0 < b) :
    (2 : ℚ) ^ (log2Ratio a b) ≤ (a : ℚ) / (b : ℚ) ∧
    (a : ℚ) / (b : ℚ) < (2 : ℚ) ^ (log2Ratio a b + 1) := by
  obtain ⟨ha1, ha2⟩ := log2Floor_spec a a ha (le_refl a)
  obtain ⟨hb1, hb2⟩ := log2Floor_spec b b hb (le_refl b)
  have hbq : (0 : ℚ) < (b : ℚ) := by exact_mod_cast hb
  have ha1q : ((2 : ℚ) ^ (log2Floor a a : Int)) ≤ (a : ℚ) := by
    rw [zpow_natCast]; exact_mod_cast ha1
  have ha2q : (a : ℚ) < (2 : ℚ) ^ (log2Floor a a : Int) * 2 := by
    rw [zpow_natCast, ← pow_succ]; exact_mod_cast ha2
  have hb1q : ((2 : ℚ) ^ (log2Floor b b : Int)) ≤ (b : ℚ) := by
    rw [zpow_natCast]; exact_mod_cast hb1
  have hb2q : (b : ℚ) < (2 : ℚ) ^ (log2Floor b b : Int) * 2 := by
    rw [zpow_natCast, ← pow_succ]; exact_mod_cast hb2
  have hpa : (0 : ℚ) < (2 : ℚ) ^ (log2Floor a a : Int) := by positivity
  have hpb : (0 : ℚ) < (2 : ℚ) ^ (log2Floor b b : Int) := by positivity
  have ht : (2 : ℚ) ^ ((log2Floor a a : Int) - (log2Floor b b : Int)) =
      (2 : ℚ) ^ (log2Floor a a : Int) / (2 : ℚ) ^ (log2Floor b b : Int) :=
    zpow_sub₀ (by norm_num) _ _
  have hup : ∀ t : Int, (2 : ℚ) ^ (t + 1) = (2 : ℚ) ^ t * 2 := by
    intro t; rw [zpow_add₀ (by norm_num : (2 : ℚ) ≠ 0)]; norm_num
  have hdown : ∀ t : Int, (2 : ℚ) ^ (t - 1) = (2 : ℚ) ^ t / 2 := by
    intro t; rw [zpow_sub₀ (by norm_num : (2 : ℚ) ≠ 0)]; norm_num
  -- the test of the definition compares `b × 2 ^ t` with `a`
  have htest : ∀ t : Int,
      ((if 0 ≤ t then decide (b * 2 ^ t.toNat ≤ a) else decide (b ≤ a * 2 ^ (-t).toNat))
        = true) ↔ (b : ℚ) * (2 : ℚ) ^ t ≤ (a : ℚ) := by
    intro t
    by_cases h : 0 ≤ t
    · rw [if_pos h, zpow_two_of_nonneg t h, decide_eq_true_iff]
      constructor
      · intro h1; exact_mod_cast h1
      · intro h1; exact_mod_cast h1
    · rw [if_neg h, zpow_two_of_neg t (by omega), decide_eq_true_iff]
      have hD : 0 < 2 ^ (-t).toNat := by positivity
      generalize 2 ^ (-t).toNat = D at hD
      have hDq : (0 : ℚ) < (D : ℚ) := by exact_mod_cast hD
      rw [mul_one_div, div_le_iff₀ hDq]
      constructor
      · intro h1; exact_mod_cast h1
      · intro h1; exact_mod_cast h1
  unfold log2Ratio
  simp only []
  by_cases hcase : (if 0 ≤ ((log2Floor a a : Int) - (log2Floor b b : Int))
      then decide (b * 2 ^ ((log2Floor a a : Int) - (log2Floor b b : Int)).toNat ≤ a)
      else decide (b ≤ a * 2 ^ (-((log2Floor a a : Int) - (log2Floor b b : Int))).toNat))
        = true
  · rw [if_pos hcase]
    have h1 := (htest _).1 hcase
    constructor
    · rw [le_div_iff₀ hbq]; linarith
    · rw [hup, ht, div_lt_iff₀ hbq, div_mul_eq_mul_div, div_mul_eq_mul_div,
        lt_div_iff₀ hpb]
      nlinarith
  · rw [if_neg hcase]
    have h1 : ¬ (b : ℚ) * (2 : ℚ) ^ ((log2Floor a a : Int) - (log2Floor b b : Int))
        ≤ (a : ℚ) := fun h => hcase ((htest _).2 h)
    constructor
    · rw [hdown, ht, le_div_iff₀ hbq, div_div, div_mul_eq_mul_div,
        div_le_iff₀ (by positivity)]
      nlinarith
    · rw [sub_add_cancel, div_lt_iff₀ hbq]
      linarith

theorem scaledRound_near (a b : Nat) (k : Int) (hb : 0 < b) :
    |(a : ℚ) / (b : ℚ) / (2 : ℚ) ^ k - (scaledRound a b k : ℚ)| ≤ 1 / 2 := by
  have hbq : (0 : ℚ) < (b : ℚ) := by exact_mod_cast hb
  unfold scaledRound
  by_cases h : 0 ≤ k
  · rw [if_pos h, zpow_two_of_nonneg k h]
    have hD : 0 < 2 ^ k.toNat := by positivity
    generalize 2 ^ k.toNat = D at hD
    have hDq : (0 : ℚ) < (D : ℚ) := by exact_mod_cast hD
    obtain ⟨h1, h2⟩ := roundHalfEven_near a (b * D) (Nat.mul_pos hb hD)
    generalize roundHalfEven a (b * D) = m at h1 h2
    have h1q : (2 : ℚ) * (m * (b * D)) ≤ 2 * a + b * D := by exact_mod_cast h1
    have h2q : (2 : ℚ) * a ≤ 2 * (m * (b * D)) + b * D := by exact_mod_cast h2
    have hx : (a : ℚ) / b / D - m = (a - m * (b * D)) / (b * D) := by
      field_simp
      ring
    rw [hx, abs_le]
    have hbD : (0 : ℚ) < b * D := by positivity
    constructor
    · rw [le_div_iff₀ hbD]; linarith
    · rw [div_le_iff₀ hbD]; linarith
  · rw [if_neg h, zpow_two_of_neg k (by omega)]
    have hD : 0 < 2 ^ (-k).toNat := by positivity
    generalize 2 ^ (-k).toNat = D at hD
    have hDq : (0 : ℚ) < (D : ℚ) := by exact_mod_cast hD
    obtain ⟨h1, h2⟩ := roundHalfEven_near (a * D) b hb
    generalize roundHalfEven (a * D) b = m at h1 h2
    have h1q : (2 : ℚ) * (m * b) ≤ 2 * (a * D) + b := by exact_mod_cast h1
    have h2q : (2 : ℚ) * (a * D) ≤ 2 * (m * b) + b := by exact_mod_cast h2
    have hx : (a : ℚ) / b / (1 / D) - m = (a * D - m * b) / b := by
      field_simp
      ring
    rw [hx, abs_le]
    constructor
    · rw [le_div_iff₀ hbq]; linarith
    · rw [div_le_iff₀ hbq]; linarith

/-- The binary64 value of a decimal is a multiple `m × 2 ^ k` of `2 ^ k` nearest to the
decimal. -/
theorem binary64_nearest (c : Nat) (e : Int) :
    |(c : ℚ) * (10 : ℚ) ^ e - binaryValue c e| ≤ (2 : ℚ) ^ (binary64 c e).2 / 2 := by
  unfold binaryValue binary64
  by_cases hc : c = 0
  · subst hc; simp
  · rw [if_neg hc]
    simp only []
    obtain ⟨_, hb, hval⟩ := decimalRatio_spec c e hc
    have h := scaledRound_near (decimalRatio c e).1 (decimalRatio c e).2
      (max (log2Ratio (decimalRatio c e).1 (decimalRatio c e).2 - 52) (-1074)) hb
    rw [hval] at h
    generalize scaledRound (decimalRatio c e).1 (decimalRatio c e).2
      (max (log2Ratio (decimalRatio c e).1 (decimalRatio c e).2 - 52) (-1074)) = m at h
    generalize max (log2Ratio (decimalRatio c e).1 (decimalRatio c e).2 - 52) (-1074) = k at h
    have hk : (0 : ℚ) < (2 : ℚ) ^ k := by positivity
    have hx : (c : ℚ) * (10 : ℚ) ^ e - (m : ℚ) * (2 : ℚ) ^ k =
        ((c : ℚ) * (10 : ℚ) ^ e / (2 : ℚ) ^ k - m) * (2 : ℚ) ^ k := by
      field_simp
      ring
    rw [hx, abs_mul, abs_of_pos hk]
    calc |(c : ℚ) * (10 : ℚ) ^ e / (2 : ℚ) ^ k - m| * (2 : ℚ) ^ k
        ≤ 1 / 2 * (2 : ℚ) ^ k := mul_le_mul_of_nonneg_right h hk.le
      _ = (2 : ℚ) ^ k / 2 := by ring

/-- The binary64 value of a non-zero decimal has at most 53 significant bits, an exponent
of at least -1074, and 53 significant bits exactly unless it is subnormal. -/
theorem binary64_precision (c : Nat) (e : Int) (hc : c ≠ 0) :
    (binary64 c e).1 ≤ 2 ^ 53 ∧ -1074 ≤ (binary64 c e).2 ∧
    ((binary64 c e).2 = -1074 ∨ 2 ^ 52 ≤ (binary64 c e).1) := by
  unfold binary64
  rw [if_neg hc]
  simp only []
  obtain ⟨ha, hb, _⟩ := decimalRatio_spec c e hc
  generalize (decimalRatio c e).1 = a at ha
  generalize (decimalRatio c e).2 = b at hb
  obtain ⟨hl1, hl2⟩ := log2Ratio_spec a b ha hb
  have hnear := scaledRound_near a b (max (log2Ratio a b - 52) (-1074)) hb
  generalize scaledRound a b (max (log2Ratio a b - 52) (-1074)) = m at hnear
  generalize log2Ratio a b = l at hl1 hl2 hnear
  have hk : (0 : ℚ) < (2 : ℚ) ^ (max (l - 52) (-1074)) := by positivity
  rw [abs_le] at hnear
  obtain ⟨hn1, hn2⟩ := hnear
  -- a / b / 2 ^ k < 2 ^ 53
  have hupper : (a : ℚ) / b / (2 : ℚ) ^ (max (l - 52) (-1074)) < (2 : ℚ) ^ (53 : Nat) := by
    rw [div_lt_iff₀ hk]
    have h1 : (2 : ℚ) ^ (l + 1) ≤ (2 : ℚ) ^ (53 : Nat) * (2 : ℚ) ^ (max (l - 52) (-1074)) := by
      rw [← zpow_natCast, ← zpow_add₀ (by norm_num : (2 : ℚ) ≠ 0)]
      apply zpow_le_zpow_right₀ (by norm_num)
      have := le_max_left (l - 52) (-1074)
      push_cast
      omega
    linarith
  refine ⟨?_, le_max_right _ _, ?_⟩
  · have h2 : (m : ℚ) < (2 : ℚ) ^ (53 : Nat) + 1 := by linarith
    have h3 : (m : ℚ) < ((2 ^ 53 + 1 : Nat) : ℚ) := by push_cast; linarith
    have h4 : m < 2 ^ 53 + 1 := by exact_mod_cast h3
    omega
  · by_cases hmax : l - 52 ≤ -1074
    · left; exact max_eq_right hmax
    · right
      have hmk : max (l - 52) (-1074) = l - 52 := max_eq_left (by omega)
      rw [hmk] at hn1 hn2 hk
      have hlower : (2 : ℚ) ^ (52 : Nat) ≤ (a : ℚ) / b / (2 : ℚ) ^ (l - 52) := by
        rw [le_div_iff₀ hk, ← zpow_natCast, ← zpow_add₀ (by norm_num : (2 : ℚ) ≠ 0)]
        have : ((52 : Nat) : Int) + (l - 52) = l := by push_cast; omega
        rw [this]
        exact hl1
      have h2 : ((2 ^ 52 : Nat) : ℚ) - 1 < (m : ℚ) := by push_cast; linarith
      have h3 : ((2 ^ 52 : Nat) : ℚ) < ((m + 1 : Nat) : ℚ) := by push_cast; linarith
      have h4 : 2 ^ 52 < m + 1 := by exact_mod_cast h3
      omega

theorem paddedDigits_spec (n : Nat) :
    3 ≤ (paddedDigits n).length ∧ (∀ ch ∈ paddedDigits n, isDigit ch = true) ∧
    parseNat (paddedDigits n) = n := by
  have hm : ∀ m : List Char, (∀ ch ∈ m, isDigit ch = true) → parseNat m = n → m ≠ [] →
      3 ≤ (if m.length ≤ 2 then List.replicate (3 - m.length) '0' ++ m else m).length ∧
      (∀ ch ∈ (if m.length ≤ 2 then List.replicate (3 - m.length) '0' ++ m else m),
        isDigit ch = true) ∧
      parseNat (if m.length ≤ 2 then List.replicate (3 - m.length) '0' ++ m else m) = n := by
    intro m hd hv hne
    by_cases h : m.length ≤ 2
    · rw [if_pos h]
      refine ⟨by simp; omega, ?_, ?_⟩
      · intro ch hch
        rcases List.mem_append.1 hch with h1 | h1
        · exact isDigit_of_mem_replicate_zero _ ch h1
        · exact hd ch h1
      · rw [parseNat_append, parseNat_replicate_zero, hv]; simp
    · rw [if_neg h]
      exact ⟨by omega, hd, hv⟩
  unfold paddedDigits
  by_cases h0 : n = 0
  · subst h0
    simp only [if_true]
    exact hm ['0'] (by intro ch hch; rw [List.mem_singleton.1 hch]; rfl) rfl (by simp)
  · simp only [if_neg h0]
    exact hm (decimalDigits n) (isDigit_of_mem_decimalDigits n) (parseNat_decimalDigits n)
      (decimalDigits_ne_nil n (Nat.pos_of_ne_zero h0))

/-- Below 10 ^ 21, `toFixed(2)` is the sign, digits, a point and two digits, and the
digits read without the point are `roundHundredths` of the binary64 value. -/
theorem toFixed2_shape (neg : Bool) (c : Nat) (e : Int)
    (h : atLeastTenPow21 (binary64 c e).1 (binary64 c e).2 = false) :
    ∃ ip d1 d2, toFixed2 (JSNumber.fin neg c e) =
        String.mk ((if neg = true ∧ (binary64 c e).1 ≠ 0 then ['-'] else []) ++ ip ++
          ['.', d1, d2]) ∧
      ip ≠ [] ∧ (∀ ch ∈ ip, isDigit ch = true) ∧ isDigit d1 = true ∧ isDigit d2 = true ∧
      parseNat (ip ++ [d1, d2]) = roundHundredths (binary64 c e).1 (binary64 c e).2 := by
  obtain ⟨hlen, hdig, hval⟩ :=
    paddedDigits_spec (roundHundredths (binary64 c e).1 (binary64 c e).2)
  obtain ⟨m, hmdef⟩ :
      ∃ m, m = paddedDigits (roundHundredths (binary64 c e).1 (binary64 c e).2) := ⟨_, rfl⟩
  rw [← hmdef] at hlen hdig hval
  have hm : toFixed2 (JSNumber.fin neg c e) =
      String.mk ((if neg = true ∧ (binary64 c e).1 ≠ 0 then ['-'] else []) ++
        m.take (m.length - 2) ++ '.' :: m.drop (m.length - 2)) := by
    simp only [toFixed2, h, Bool.false_eq_true, if_false]
    rw [← hmdef]
  have hd : (m.drop (m.length - 2)).length = 2 := by
    rw [List.length_drop]; omega
  obtain ⟨d1, d2, hd12⟩ := List.length_eq_two.1 hd
  refine ⟨m.take (m.length - 2), d1, d2, ?_, ?_, ?_, ?_, ?_, ?_⟩
  · rw [hm, hd12]
  · intro h0
    have := congrArg List.length h0
    simp only [List.length_take, List.length_nil] at this
    omega
  · intro ch hch
    exact hdig ch (List.mem_of_mem_take hch)
  · exact hdig d1 (List.mem_of_mem_drop (by rw [hd12]; simp))
  · exact hdig d2 (List.mem_of_mem_drop (by rw [hd12]; simp))
  · rw [← hd12, List.take_append_drop, hval]

theorem renderPrice_number (x : JSNumber) (hx : x.Canonical) :
    renderPrice (PriceData.number x) = "$" ++ toFixed2 x := by
  unfold renderPrice
  by_cases hz : x = JSNumber.fin true 0 0
  · subst hz; rfl
  · simp only []
    rw [parseFloat_numberToString x hx hz]

theorem hundred_mul_value (c : Nat) (e : Int) :
    100 * ((c : ℚ) * (10 : ℚ) ^ e) = (c : ℚ) * (10 : ℚ) ^ (e + 2) := by
  rw [zpow_add₀ (by norm_num : (10 : ℚ) ≠ 0)]
  norm_num
  ring

/-- `atLeastHundredth` holds of a finite Number only when its value is at least 0.01. -/
theorem value_of_atLeastHundredth (neg : Bool) (c : Nat) (e : Int) (q : ℚ)
    (hq : (JSNumber.fin neg c e).value = some q)
    (h : atLeastHundredth (JSNumber.fin neg c e) = true) : 1 / 100 ≤ q := by
  simp only [atLeastHundredth, Bool.and_eq_true, Bool.not_eq_true', decide_eq_true_eq] at h
  obtain ⟨hneg, h2⟩ := h
  subst hneg
  simp only [JSNumber.value, Bool.false_eq_true, if_false, one_mul, Option.some.injEq] at hq
  have hx := hundred_mul_value c e
  rw [hq] at hx
  suffices hs : (1 : ℚ) ≤ (c : ℚ) * (10 : ℚ) ^ (e + 2) by linarith
  by_cases he : 0 ≤ e + 2
  · rw [if_pos he, decide_eq_true_eq] at h2
    rw [zpow_ten_of_nonneg _ he]
    have h3 : 1 ≤ c * 10 ^ (e + 2).toNat := Nat.mul_pos h2 (by positivity)
    exact_mod_cast h3
  · rw [if_neg he, decide_eq_true_eq] at h2
    rw [zpow_ten_of_neg _ (by omega)]
    have hD : 0 < 10 ^ (-(e + 2)).toNat := by positivity
    generalize 10 ^ (-(e + 2)).toNat = D at hD h2
    have hDq : (0 : ℚ) < (D : ℚ) := by exact_mod_cast hD
    rw [mul_one_div, le_div_iff₀ hDq, one_mul]
    exact_mod_cast h2

/-! ## C1 -/

/-- C1: for every failed transport outcome (status code, optional error text of the
service), `createItem` and `updateItem` fail, and the error is the duplicate-name conflict
error exactly when the status is 409; for every other status the message begins with the
prefix of the operation, contains the text of the service when one is present and
contains the generic text "Error desconocido" when none is present. The 409 message of
`createItem` contains the word "único". -/
theorem C1_error_mapping (itemData : ItemData) (id : String) (status : Nat)
    (err : Option String) :
    (∃ m, createItem itemData (Except.error ⟨status, err⟩) = Except.error m ∧
      (m = createConflictMessage ↔ status = 409) ∧
      (status ≠ 409 → "Error al crear el item: ".data <+: m.data ∧
        (∀ s, err = some s → includes m s) ∧
        (err = none → includes m "Error desconocido"))) ∧
    (∃ m, updateItem id itemData (Except.error ⟨status, err⟩) = Except.error m ∧
      (m = updateConflictMessage ↔ status = 409) ∧
      (status ≠ 409 → "Error al actualizar el item: ".data <+: m.data ∧
        (∀ s, err = some s → includes m s) ∧
        (err = none → includes m "Error desconocido"))) ∧
    createItem itemData (Except.error ⟨409, err⟩) = Except.error createConflictMessage ∧
    includes createConflictMessage "único" := by
  refine ⟨⟨_, rfl, ?_, ?_⟩, ⟨_, rfl, ?_, ?_⟩, rfl, by decide⟩
  · unfold createItemError
    by_cases h : status = 409
    · simp [h]
    · simp only [h, if_false, iff_false]
      exact append_ne_of_head _ _ _ 'E' 'Y' _ _ rfl rfl (by decide)
  · intro h
    unfold createItemError
    simp only [h, if_false]
    exact ⟨by rw [String.data_append]; exact List.prefix_append _ _,
      (includes_orElse err _ _).1, (includes_orElse err _ _).2⟩
  · unfold updateItemError
    by_cases h : status = 409
    · simp [h]
    · simp only [h, if_false, iff_false]
      exact append_ne_of_head _ _ _ 'E' 'Y' _ _ rfl rfl (by decide)
  · intro h
    unfold updateItemError
    simp only [h, if_false]
    exact ⟨by rw [String.data_append]; exact List.prefix_append _ _,
      (includes_orElse err _ _).1, (includes_orElse err _ _).2⟩

/-! ## Lemmas on the handlers -/

theorem stripZeros_fst_mod (fuel c : Nat) (e : Int) (h0 : c ≠ 0) (hf : c ≤ fuel) :
    (stripZeros fuel c e).1 % 10 ≠ 0 := by
  induction fuel generalizing c e with
  | zero => omega
  | succ f ih =>
    unfold stripZeros
    by_cases h : c % 10 = 0
    · rw [if_pos h]
      exact ih (c / 10) (e + 1) (by omega) (by omega)
    · rw [if_neg h]; exact h

theorem normalize_canonical_out (neg : Bool) (c : Nat) (e : Int) :
    (normalize neg c e).Canonical := by
  unfold normalize
  by_cases h : c = 0
  · rw [if_pos h]; simp [JSNumber.Canonical]
  · rw [if_neg h]
    have h1 := stripZeros_fst_mod c c e h (le_refl c)
    have h2 : (stripZeros c c e).1 ≠ 0 := fun h3 => h1 (by rw [h3])
    simp [JSNumber.Canonical, h1, h2]

theorem numberToString_ne_empty (x : JSNumber) : numberToString x ≠ "" := by
  cases x with
  | nan => decide
  | inf neg => cases neg <;> decide
  | fin neg c e =>
    simp only [numberToString]
    by_cases h : c = 0
    · rw [if_pos h]; decide
    · rw [if_neg h]
      have h1 := stripZeros_fst_mod c c e h (le_refl c)
      obtain ⟨d, t, hdt, _⟩ := positiveToString_head (stripZeros c c e).1
        (Nat.pos_of_ne_zero (fun h3 => h1 (by rw [h3]))) (stripZeros c c e).2
      rw [hdt]
      intro h4
      have := congrArg String.data h4
      cases neg <;> simp at this

theorem log_hideLoading (a : App) : a.hideLoading.log = a.log ++ [Action.hideLoading] := rfl

theorem submitHandler_valid (a : App) (ajax : Except Xhr Item) (h : valid a.form = true) :
    a.submitHandler ajax =
      (if a.form.itemId ≠ "" then
        match updateItem a.form.itemId a.getFormData ajax with
        | Except.ok _ =>
          ((((a.showLoading.record (Action.updateItem a.form.itemId a.getFormData)).showNotification
            "Item actualizado exitosamente" Severity.success).hideItemModal).refreshTable)
        | Except.error message =>
          (a.showLoading.record (Action.updateItem a.form.itemId a.getFormData)).showNotification
            message Severity.error
      else
        match createItem a.getFormData ajax with
        | Except.ok _ =>
          ((((a.showLoading.record (Action.createItem a.getFormData)).showNotification
            "Item creado exitosamente" Severity.success).hideItemModal).refreshTable)
        | Except.error message =>
          (a.showLoading.record (Action.createItem a.getFormData)).showNotification message
            Severity.error).hideLoading := by
  unfold App.submitHandler
  simp [h]

/-! ## C5 -/

/-- C5 as stated fails for a blank name of white space only: the name field "   " has 3
characters, so with the price "5" the form is valid, and the submit handler calls
`createItem` with the trimmed name "". -/
theorem C5_counterexample_blank_name :
    valid ⟨"", "   ", "A widget", "5"⟩ = true ∧
    ({ App.new with form := ⟨"", "   ", "A widget", "5"⟩, log := [] }.submitHandler
      (Except.ok ⟨1, "", "A widget", PriceData.number (JSNumber.fin false 5 0),
        ""⟩)).log.filter Action.isApiCall =
      [Action.createItem ⟨"", "A widget", JSNumber.fin false 5 0⟩] := by
  decide

/-- C5, amended: when the text of the name field is shorter than 2 or longer than 100
characters (an empty name has none), or the price field is not a decimal numeral (an
absent price is none), or the value of the price is below 0.01 (a price of 0 is), the
submit handler returns the state it was given: it calls neither `createItem` nor
`updateItem`, does not show the loading overlay and starts no reload. -/
theorem C5_invalid_submit_does_nothing (a : App) (ajax : Except Xhr Item)
    (h : a.form.itemName.length < 2 ∨ 100 < a.form.itemName.length ∨
      isNumeric a.form.itemPrice = false ∨
      ∃ q, (parseFloat a.form.itemPrice).value = some q ∧ q < 1 / 100) :
    a.submitHandler ajax = a ∧
    (a.submitHandler ajax).log = a.log ∧
    (a.submitHandler ajax).loading = a.loading ∧
    (a.submitHandler ajax).loadsInFlight = a.loadsInFlight := by
  have hv : valid a.form = false := by
    unfold valid
    rcases h with h | h | h | ⟨q, hq, hlt⟩
    · have : decide (2 ≤ a.form.itemName.length) = false := by simp; omega
      simp [this]
    · have : decide (a.form.itemName.length ≤ 100) = false := by simp; omega
      simp [this]
    · simp [h]
    · have : atLeastHundredth (parseFloat a.form.itemPrice) = false := by
        cases hp : parseFloat a.form.itemPrice with
        | nan => rfl
        | inf neg => rw [hp] at hq; simp [JSNumber.value] at hq
        | fin neg c e =>
          rw [hp] at hq
          by_contra hcon
          have := value_of_atLeastHundredth neg c e q hq (by simpa using hcon)
          linarith
      simp [this]
  have hs : a.submitHandler ajax = a := by
    unfold App.submitHandler
    simp [hv]
  rw [hs]
  exact ⟨rfl, rfl, rfl, rfl⟩

/-- C5 at a form whose price field is "0" and at a form whose name field is empty. -/
theorem C5_invalid_submit_witness :
    ({ App.new with form := ⟨"", "Widget", "A widget", "0"⟩ }.submitHandler
        (Except.ok ⟨1, "Widget", "A widget", PriceData.number JSNumber.zero, ""⟩) =
      { App.new with form := ⟨"", "Widget", "A widget", "0"⟩ }) ∧
    ({ App.new with form := ⟨"", "", "A widget", "9.99"⟩ }.submitHandler
        (Except.error ⟨500, none⟩) =
      { App.new with form := ⟨"", "", "A widget", "9.99"⟩ }) :=
  ⟨(C5_invalid_submit_does_nothing _ _ (Or.inr (Or.inr (Or.inr
      ⟨0, by
        rw [show parseFloat ({ App.new with
          form := ⟨"", "Widget", "A widget", "0"⟩ } : App).form.itemPrice
            = JSNumber.fin false 0 0 from by decide]
        simp [JSNumber.value], by norm_num⟩)))).1,
   (C5_invalid_submit_does_nothing _ _ (Or.inl (by decide))).1⟩

/-! ## C8 -/

/-- C8: on a valid form the submit handler makes exactly one call of `ApiService`,
whatever its outcome (the reload of the grid that follows a success is the request of the
grid, not a call of `ApiService`): `updateItem(id, draft)` with the text of the id field when that text
is not empty, `createItem(draft)` when it is, where `draft` is what `getFormData` returns.
`setupCreateForm` leaves the id field empty and `setupEditForm(item)` fills it with the
text of `item.id`, which is not empty and reads back as `item.id`; so a submit of a valid
form whose id field is as `setupCreateForm` left it calls `createItem`, and one whose id
field is as `setupEditForm(item)` left it calls `updateItem` with `item.id`. -/
theorem C8_submit_issues_one_call (a : App) (ajax : Except Xhr Item)
    (h : valid a.form = true) :
    (a.submitHandler ajax).log.filter Action.isApiCall =
      a.log.filter Action.isApiCall ++
        [if a.form.itemId ≠ "" then Action.updateItem a.form.itemId a.getFormData
         else Action.createItem a.getFormData] ∧
    (∀ a0 : App, a.form.itemId = a0.setupCreateForm.form.itemId →
      (a.submitHandler ajax).log.filter Action.isApiCall =
        a.log.filter Action.isApiCall ++ [Action.createItem a.getFormData]) ∧
    (∀ (a0 : App) (item : Item), a.form.itemId = (a0.setupEditForm item).form.itemId →
      (a.submitHandler ajax).log.filter Action.isApiCall =
        a.log.filter Action.isApiCall ++
          [Action.updateItem (numberToString (normalize false item.id 0)) a.getFormData] ∧
      parseFloat (numberToString (normalize false item.id 0)) = normalize false item.id 0) := by
  have key : (a.submitHandler ajax).log.filter Action.isApiCall =
      a.log.filter Action.isApiCall ++
        [if a.form.itemId ≠ "" then Action.updateItem a.form.itemId a.getFormData
         else Action.createItem a.getFormData] := by
    rw [submitHandler_valid a ajax h]
    by_cases hid : a.form.itemId = ""
    · cases ajax <;>
        simp [hid, createItem, App.hideLoading, App.refreshTable, App.hideItemModal,
          App.showNotification, App.record, App.showLoading, Action.isApiCall,
          List.filter_append, List.filter_cons]
    · cases ajax <;>
        simp [hid, updateItem, App.hideLoading, App.refreshTable, App.hideItemModal,
          App.showNotification, App.record, App.showLoading, Action.isApiCall,
          List.filter_append, List.filter_cons]
  refine ⟨key, ?_, ?_⟩
  · intro a0 h0
    have hid : a.form.itemId = "" := by rw [h0]; rfl
    rw [key, if_neg (by simp [hid])]
  · intro a0 item h0
    have hid : a.form.itemId = numberToString (normalize false item.id 0) := by
      rw [h0]; rfl
    refine ⟨?_, ?_⟩
    · rw [key, if_pos (by rw [hid]; exact numberToString_ne_empty _), hid]
    · apply parseFloat_numberToString _ (normalize_canonical_out _ _ _)
      unfold normalize
      split <;> simp

/-- C8 at the form that `setupEditForm` fills from item 7 ("Widget", 9.99): the handler
calls `updateItem` with id "7" and the draft of the form. -/
theorem C8_submit_issues_one_call_witness :
    valid (App.new.setupEditForm
      ⟨7, "Widget", "A widget", PriceData.number (JSNumber.fin false 999 (-2)), ""⟩).form
      = true ∧
    (((App.new.setupEditForm
      ⟨7, "Widget", "A widget", PriceData.number (JSNumber.fin false 999 (-2)), ""⟩).submitHandler
        (Except.error ⟨409, none⟩)).log.filter Action.isApiCall =
      [Action.updateItem "7" ⟨"Widget", "A widget", JSNumber.fin false 999 (-2)⟩]) := by
  refine ⟨by decide, ?_⟩
  have h := (C8_submit_issues_one_call (App.new.setupEditForm
      ⟨7, "Widget", "A widget", PriceData.number (JSNumber.fin false 999 (-2)), ""⟩)
      (Except.error ⟨409, none⟩) (by decide)).1
  rw [h]
  decide

/-! ## C9 -/

/-- C9: when the create or update call of a submit of a valid form fails, with status 409
or any other, the handler makes these calls and no other: `showLoading`, the call,
one `showNotification` of type error with the message of the thrown error, `hideLoading`.
It does not close the edit modal, starts no reload of the grid, shows no success
notification and leaves the form as it is. -/
theorem C9_failed_submit_notifies (a : App) (xhr : Xhr) (h : valid a.form = true) :
    (a.submitHandler (Except.error xhr)).log =
      a.log ++
        (if a.form.itemId ≠ "" then
          [Action.showLoading, Action.updateItem a.form.itemId a.getFormData,
           Action.showNotification (updateItemError xhr) Severity.error, Action.hideLoading]
         else
          [Action.showLoading, Action.createItem a.getFormData,
           Action.showNotification (createItemError xhr) Severity.error,
           Action.hideLoading]) ∧
    (a.submitHandler (Except.error xhr)).itemModalOpen = a.itemModalOpen ∧
    (a.submitHandler (Except.error xhr)).loadsInFlight = a.loadsInFlight ∧
    (a.submitHandler (Except.error xhr)).form = a.form := by
  rw [submitHandler_valid a _ h]
  by_cases hid : a.form.itemId = ""
  · simp [hid, createItem, App.hideLoading, App.showNotification, App.record,
      App.showLoading]
  · simp [hid, updateItem, App.hideLoading, App.showNotification, App.record,
      App.showLoading]

/-- C9 at a create of "Widget" that the service rejects with status 409: the one
notification carries the duplicate-name message. -/
theorem C9_failed_submit_notifies_witness :
    valid ⟨"", "Widget", "", "5"⟩ = true ∧
    ({ App.new with form := ⟨"", "Widget", "", "5"⟩, log := [] }.submitHandler
      (Except.error ⟨409, none⟩)).log =
      [Action.showLoading, Action.createItem ⟨"Widget", "", JSNumber.fin false 5 0⟩,
       Action.showNotification createConflictMessage Severity.error, Action.hideLoading] := by
  refine ⟨by decide, ?_⟩
  have h := (C9_failed_submit_notifies
    { App.new with form := ⟨"", "Widget", "", "5"⟩, log := [] } ⟨409, none⟩ (by decide)).1
  rw [h]
  decide

/-! ## C6 -/

/-- C6: in every run of the submit handler on a valid form, of the confirm-delete handler
with a pending id and of the edit handler, whether the call succeeds or fails with any
error, `hideLoading` is called after the call, the overlay is inactive when the handler
ends, and it is inactive again once a load of the grid has completed, successfully or
not. -/
theorem C6_loading_hidden_after_every_sequence (a : App) :
    (valid a.form = true → ∀ ajax : Except Xhr Item,
      HidesAfter a.log (a.submitHandler ajax).log
        (if a.form.itemId ≠ "" then Action.updateItem a.form.itemId a.getFormData
         else Action.createItem a.getFormData) ∧
      (a.submitHandler ajax).loading = false ∧
      ∀ r, ((a.submitHandler ajax).loadSettled r).loading = false) ∧
    (∀ id, a.pendingDelete = some id → ∀ ajax : Except Xhr Unit,
      HidesAfter a.log (a.confirmDeleteHandler ajax).log (Action.deleteItem id) ∧
      (a.confirmDeleteHandler ajax).loading = false ∧
      ∀ r, ((a.confirmDeleteHandler ajax).loadSettled r).loading = false) ∧
    (∀ (itemId : Nat) (ajax : Except Xhr Item),
      HidesAfter a.log (a.editClickHandler itemId ajax).log (Action.getItemById itemId) ∧
      (a.editClickHandler itemId ajax).loading = false ∧
      ∀ r, ((a.editClickHandler itemId ajax).loadSettled r).loading = false) := by
  have settled : ∀ (b : App) r, (b.loadSettled r).loading = false := by
    intro b r
    cases r <;> rfl
  refine ⟨?_, ?_, ?_⟩
  · intro hv ajax
    refine ⟨?_, ?_, settled _⟩
    · rw [submitHandler_valid a ajax hv]
      by_cases hid : a.form.itemId = ""
      · cases ajax <;>
          exact ⟨[Action.showLoading], _, by
            simp [hid, createItem, App.hideLoading, App.refreshTable, App.hideItemModal,
              App.showNotification, App.record, App.showLoading]; rfl, by simp⟩
      · cases ajax <;>
          exact ⟨[Action.showLoading], _, by
            simp [hid, updateItem, App.hideLoading, App.refreshTable, App.hideItemModal,
              App.showNotification, App.record, App.showLoading]; rfl, by simp⟩
    · rw [submitHandler_valid a ajax hv]; rfl
  · intro id hp ajax
    refine ⟨?_, ?_, settled _⟩
    · unfold App.confirmDeleteHandler
      rw [hp]
      cases ajax <;>
        exact ⟨[Action.showLoading], _, by
          simp [deleteItem, App.hideLoading, App.refreshTable, App.hideDeleteConfirmation,
            App.showNotification, App.record, App.showLoading]; rfl, by simp⟩
    · unfold App.confirmDeleteHandler
      rw [hp]
      rfl
  · intro itemId ajax
    refine ⟨?_, rfl, settled _⟩
    unfold App.editClickHandler
    cases ajax <;>
      exact ⟨[Action.showLoading], _, by
        simp [getItemById, App.hideLoading, App.setupEditForm, App.resetForm,
          App.showNotification, App.record, App.showLoading]; rfl, by simp⟩

/-- C6 at a state with the valid form "Widget", 9.99 and the pending delete id 4: after a
successful create and the failed reload that follows, after a failed delete and after a
failed fetch the overlay is inactive. -/
theorem C6_loading_hidden_witness :
    valid ⟨"", "Widget", "A widget", "9.99"⟩ = true ∧
    ((({ App.new with form := ⟨"", "Widget", "A widget", "9.99"⟩, deleteItemId := some 4 }
      : App).submitHandler (Except.ok ⟨1, "Widget", "A widget",
        PriceData.number (JSNumber.fin false 999 (-2)), ""⟩)).loadSettled
          (Except.error "timeout")).loading = false ∧
    (({ App.new with form := ⟨"", "Widget", "A widget", "9.99"⟩, deleteItemId := some 4 }
      : App).confirmDeleteHandler (Except.error ⟨404, none⟩)).loading = false ∧
    (({ App.new with form := ⟨"", "Widget", "A widget", "9.99"⟩, deleteItemId := some 4 }
      : App).editClickHandler 4 (Except.error ⟨404, none⟩)).loading = false := by
  have h := C6_loading_hidden_after_every_sequence
    { App.new with form := ⟨"", "Widget", "A widget", "9.99"⟩, deleteItemId := some 4 }
  exact ⟨by decide, (h.1 (by decide) _).2.2 _, (h.2.1 4 (by decide) _).2.1,
    (h.2.2 4 _).2.1⟩

/-! ## C7 -/

/-- C7 (the code departs from the claim): `refreshTable` alone shows the overlay, and the
completion of the load hides it, on success and on failure; but when the submit handler
or the confirm-delete handler calls it on their success path, their `finally` block hides
the overlay at once, while the reload is still in flight. Here on the first submit of a
new item "Widget": the handler ends with a load in flight and the overlay inactive, its
last three calls being `showLoading`, `reload`, `hideLoading`; likewise for the
confirmation of the deletion of item 1. -/
theorem C7_overlay_hidden_while_reload_in_flight :
    (App.new.loadSettled (Except.ok ())).refreshTable.loading = true ∧
    ((App.new.loadSettled (Except.ok ())).refreshTable.loadSettled (Except.ok ())).loading
      = false ∧
    ((App.new.loadSettled (Except.ok ())).refreshTable.loadSettled
      (Except.error "timeout")).loading = false ∧
    valid ⟨"", "Widget", "A widget", "9.99"⟩ = true ∧
    ({ App.new.loadSettled (Except.ok ()) with
        form := ⟨"", "Widget", "A widget", "9.99"⟩ }.submitHandler
      (Except.ok ⟨1, "Widget", "A widget", PriceData.number (JSNumber.fin false 999 (-2)),
        "2024-01-01 10:00"⟩)).loadsInFlight = 1 ∧
    ({ App.new.loadSettled (Except.ok ()) with
        form := ⟨"", "Widget", "A widget", "9.99"⟩ }.submitHandler
      (Except.ok ⟨1, "Widget", "A widget", PriceData.number (JSNumber.fin false 999 (-2)),
        "2024-01-01 10:00"⟩)).loading = false ∧
    ({ App.new.loadSettled (Except.ok ()) with
        form := ⟨"", "Widget", "A widget", "9.99"⟩, log := [] }.submitHandler
      (Except.ok ⟨1, "Widget", "A widget", PriceData.number (JSNumber.fin false 999 (-2)),
        "2024-01-01 10:00"⟩)).log =
      [Action.showLoading,
       Action.createItem ⟨"Widget", "A widget", JSNumber.fin false 999 (-2)⟩,
       Action.showNotification "Item creado exitosamente" Severity.success,
       Action.hideItemModal, Action.showLoading, Action.reload, Action.hideLoading] ∧
    (((App.new.loadSettled (Except.ok ())).deleteClickHandler 1).confirmDeleteHandler
      (Except.ok ())).loadsInFlight = 1 ∧
    (((App.new.loadSettled (Except.ok ())).deleteClickHandler 1).confirmDeleteHandler
      (Except.ok ())).loading = false := by
  refine ⟨rfl, rfl, rfl, by decide, by decide, by decide, by decide, rfl, rfl⟩

/-! ## C10 -/

theorem deleteItemId_confirmDeleteHandler (a : App) (ajax : Except Xhr Unit) :
    (a.confirmDeleteHandler ajax).deleteItemId = a.deleteItemId := by
  unfold App.confirmDeleteHandler
  cases a.pendingDelete with
  | none => rfl
  | some id => cases ajax <;> rfl

theorem deleteItemId_deleteRun (a : App) (evs : List DeleteEvent) :
    (deleteRun a evs).deleteItemId = lastTrigger a.deleteItemId evs := by
  induction evs generalizing a with
  | nil => rfl
  | cons ev evs ih =>
    have h : deleteRun a (ev :: evs) = deleteRun (deleteStep a ev) evs := rfl
    have h2 : lastTrigger a.deleteItemId (ev :: evs) =
        lastTrigger (deleteStep a ev).deleteItemId evs := by
      cases ev with
      | trigger id => rfl
      | confirm ajax =>
        show lastTrigger a.deleteItemId evs = _
        rw [show deleteStep a (DeleteEvent.confirm ajax) = a.confirmDeleteHandler ajax from rfl,
          deleteItemId_confirmDeleteHandler]
      | cancel => rfl
    rw [h, h2, ih]

theorem lastTrigger_pos (start : Option Nat) (evs : List DeleteEvent)
    (hs : ∀ id, start = some id → 0 < id)
    (hpos : ∀ id, DeleteEvent.trigger id ∈ evs → 0 < id) :
    ∀ id, lastTrigger start evs = some id → 0 < id := by
  induction evs generalizing start with
  | nil => exact hs
  | cons ev evs ih =>
    have hpos2 : ∀ id, DeleteEvent.trigger id ∈ evs → 0 < id :=
      fun id h => hpos id (List.mem_cons_of_mem _ h)
    cases ev with
    | trigger id0 =>
      exact ih (some id0) (fun id h => by
        cases h; exact hpos id0 (List.mem_cons_self _ _)) hpos2
    | confirm ajax => exact ih start hs hpos2
    | cancel => exact ih start hs hpos2

/-- C10: in every state reached from the initial one by delete-trigger clicks on rows
with a positive id, confirmations (successful or failed) and cancellations,
`deleteItemId` is the id of the most recent delete-trigger click (`null` before the
first); the confirm handler does not write it, on success or on failure; the call of
`deleteItem` that a confirmation makes carries that id; and a failed delete leaves the
confirm modal and `deleteItemId` as they were. -/
theorem C10_pending_delete_id (evs : List DeleteEvent)
    (hpos : ∀ id, DeleteEvent.trigger id ∈ evs → 0 < id) :
    (deleteRun App.new evs).deleteItemId = lastTrigger none evs ∧
    (∀ ajax, ((deleteRun App.new evs).confirmDeleteHandler ajax).deleteItemId =
      (deleteRun App.new evs).deleteItemId) ∧
    (∀ ajax id, lastTrigger none evs = some id →
      ((deleteRun App.new evs).confirmDeleteHandler ajax).log.filter Action.isApiCall =
        (deleteRun App.new evs).log.filter Action.isApiCall ++ [Action.deleteItem id]) ∧
    (∀ xhr, ((deleteRun App.new evs).confirmDeleteHandler (Except.error xhr)).deleteModalOpen
        = (deleteRun App.new evs).deleteModalOpen ∧
      ((deleteRun App.new evs).confirmDeleteHandler (Except.error xhr)).deleteItemId
        = lastTrigger none evs) := by
  have h1 : (deleteRun App.new evs).deleteItemId = lastTrigger none evs :=
    deleteItemId_deleteRun App.new evs
  refine ⟨h1, fun ajax => deleteItemId_confirmDeleteHandler _ ajax, ?_, ?_⟩
  · intro ajax id hid
    have hidpos : 0 < id := lastTrigger_pos none evs (by simp) hpos id hid
    have hp : (deleteRun App.new evs).pendingDelete = some id := by
      unfold App.pendingDelete
      rw [h1, hid]
      simp only []
      rw [if_neg (by omega)]
    unfold App.confirmDeleteHandler
    rw [hp]
    cases ajax <;>
      simp [deleteItem, App.hideLoading, App.refreshTable, App.hideDeleteConfirmation,
        App.showNotification, App.record, App.showLoading, Action.isApiCall,
        List.filter_append, List.filter_cons]
  · intro xhr
    refine ⟨?_, by rw [deleteItemId_confirmDeleteHandler, h1]⟩
    unfold App.confirmDeleteHandler
    cases (deleteRun App.new evs).pendingDelete with
    | none => rfl
    | some id => rfl

/-- C10 on the run: click delete on row 3, cancel, click delete on row 8, a failed
confirmation: the pending id is 8, the failed confirmation called `deleteItem(8)` and
the confirm modal is still open. -/
theorem C10_pending_delete_id_witness :
    (deleteRun App.new [DeleteEvent.trigger 3, DeleteEvent.cancel, DeleteEvent.trigger 8,
      DeleteEvent.confirm (Except.error ⟨500, none⟩)]).deleteItemId = some 8 ∧
    (deleteRun App.new [DeleteEvent.trigger 3, DeleteEvent.cancel, DeleteEvent.trigger 8,
      DeleteEvent.confirm (Except.error ⟨500, none⟩)]).deleteModalOpen = true ∧
    (deleteRun App.new [DeleteEvent.trigger 3, DeleteEvent.cancel, DeleteEvent.trigger 8,
      DeleteEvent.confirm (Except.error ⟨500, none⟩)]).log.filter Action.isApiCall =
      [Action.deleteItem 8] := by
  have h := C10_pending_delete_id [DeleteEvent.trigger 3, DeleteEvent.cancel,
    DeleteEvent.trigger 8, DeleteEvent.confirm (Except.error ⟨500, none⟩)] (by
      intro id hid
      simp at hid
      omega)
  refine ⟨h.1.trans rfl, by decide, by decide⟩

/-! ## C2 -/

/-- C2 as stated fails: with the price field "abc", which no numeral begins, and with the
price field of three spaces, `getFormData` returns the price `NaN`, not 0. -/
theorem C2_counterexample_unparseable_price :
    startsNumeral "abc" = false ∧
    ({ App.new with form := ⟨"", "Widget", "A widget", "abc"⟩ } : App).getFormData.price
      = JSNumber.nan ∧
    ({ App.new with form := ⟨"", "Widget", "A widget", "   "⟩ } : App).getFormData.price
      = JSNumber.nan ∧
    JSNumber.nan ≠ JSNumber.zero := by
  decide

/-- C2, amended: for every content of the form fields, `getFormData` returns as name and
description the field texts without their leading and trailing white space, and as price
the Number that `parseFloat` reads from the price field, 0 when the field is empty; a
field that holds the text of a Number gives that Number; and the price is `NaN`, not 0,
exactly when the field is not empty and its text, after leading white space, does not
begin with a numeral. -/
theorem C2_getFormData_reads_form (a : App) :
    IsTrimOf a.getFormData.name a.form.itemName ∧
    IsTrimOf a.getFormData.description a.form.itemDescription ∧
    (a.form.itemPrice = "" → a.getFormData.price = JSNumber.zero) ∧
    (a.form.itemPrice ≠ "" → a.getFormData.price = parseFloat a.form.itemPrice) ∧
    (∀ x : JSNumber, x.Canonical → x ≠ JSNumber.fin true 0 0 →
      a.form.itemPrice = numberToString x → a.getFormData.price = x) ∧
    (a.getFormData.price = JSNumber.nan ↔
      a.form.itemPrice ≠ "" ∧ startsNumeral a.form.itemPrice = false) := by
  refine ⟨isTrimOf_trim _, isTrimOf_trim _, ?_, ?_, ?_, ?_⟩
  · intro h
    simp [App.getFormData, h]
  · intro h
    simp [App.getFormData, h]
  · intro x hx hz h
    have hne : a.form.itemPrice ≠ "" := by rw [h]; exact numberToString_ne_empty x
    simp only [App.getFormData, hne, if_false]
    rw [h]
    exact parseFloat_numberToString x hx hz
  · by_cases h : a.form.itemPrice = ""
    · simp [App.getFormData, h, JSNumber.zero]
    · simp only [App.getFormData, h, if_false, ne_eq, not_false_eq_true, true_and]
      exact parseFloat_eq_nan _

/-! ## C3 -/

/-- C3 as stated fails: the name "ab " has 3 characters and the price 9.99 is at least
0.01, but after `setupEditForm` of the item with that name `getFormData` returns the name
"ab". -/
theorem C3_counterexample_untrimmed_name :
    (2 ≤ "ab ".length ∧ "ab ".length ≤ 100) ∧
    (App.new.setupEditForm
      ⟨1, "ab ", "A widget", PriceData.number (JSNumber.fin false 999 (-2)), ""⟩).getFormData
      = ⟨"ab", "A widget", JSNumber.fin false 999 (-2)⟩ ∧
    "ab" ≠ "ab " := by
  decide

/-- C3, amended: for every draft with a name of 2 to 100 characters and a price of at
least 0.01 whose name and description carry no leading or trailing white space, and the
item the service returns for it (the same name, description and price, and an id),
`getFormData` after `setupEditForm` of that item returns the draft. Every draft that
`getFormData` returns carries no such white space. -/
theorem C3_edit_form_roundtrip (a : App) (d : ItemData) (id : Nat) (created : String)
    (q : ℚ) (hlen : 2 ≤ d.name.length ∧ d.name.length ≤ 100)
    (hprice : d.price.value = some q ∧ 1 / 100 ≤ q) (hcan : d.price.Canonical)
    (hname : trim d.name = d.name) (hdesc : trim d.description = d.description) :
    (a.setupEditForm ⟨id, d.name, d.description, PriceData.number d.price,
      created⟩).getFormData = d ∧
    ∀ b : App, trim b.getFormData.name = b.getFormData.name ∧
      trim b.getFormData.description = b.getFormData.description := by
  refine ⟨?_, fun b => ⟨trim_trim _, trim_trim _⟩⟩
  obtain ⟨c, e, hp, hc⟩ := positive_of_value d.price q hprice.1 (by linarith [hprice.2])
  have htruthy : d.price.truthy = true := by rw [hp]; simp [JSNumber.truthy, hc]
  have hne := numberToString_ne_empty d.price
  have hrt := parseFloat_numberToString d.price hcan (by rw [hp]; simp)
  cases d with
  | mk name description price =>
    simp only [App.getFormData, App.setupEditForm, App.priceOrZero] at *
    simp [htruthy, hne, hrt, hname, hdesc]

/-- C3 at the draft "Widget", "A widget", 9.99 and the item 1 returned for it. -/
theorem C3_edit_form_roundtrip_witness :
    (App.new.setupEditForm
      ⟨1, "Widget", "A widget", PriceData.number (JSNumber.fin false 999 (-2)),
        "2024-01-01 10:00"⟩).getFormData
      = ⟨"Widget", "A widget", JSNumber.fin false 999 (-2)⟩ :=
  (C3_edit_form_roundtrip App.new ⟨"Widget", "A widget", JSNumber.fin false 999 (-2)⟩ 1
    "2024-01-01 10:00" (999 / 100) (by decide)
    ⟨by simp [JSNumber.value]; norm_num, by norm_num⟩ (by decide) (by decide)
    (by decide)).1

/-! ## C4 -/

/-- C4 as stated fails: the price 10 ^ 21 renders as "$1e+21", which has no decimal
point. -/
theorem C4_counterexample_large_price :
    renderPrice (PriceData.number (JSNumber.fin false 1 21)) = "$1e+21" := by
  decide

/-- C4, amended: the price renderer returns "$0.00" for `null` and for `undefined`,
"$9.99" for 9.99 and "$5.00" for 5 (and "$1.00" for 1.005, "$2.67" for 2.675, whose
binary64 values lie below the decimals); and for every Number `p` of absolute value below
10 ^ 21 it returns "$", a minus sign when `p` is negative, one or more digits, a point and
exactly two digits, the digits being those of the integer nearest to `100 × |p|` (the
larger one on a tie), that is `|p|` rounded to two decimals. Here `|p|` is the binary64
value of the Number written `c × 10 ^ e`: a multiple `m × 2 ^ k` of `2 ^ k` nearest to
the decimal, with at most 53 significant bits and exactly 53 unless `k = -1074`. -/
theorem C4_renderPrice_two_decimals (neg : Bool) (c : Nat) (e : Int)
    (hcan : (JSNumber.fin neg c e).Canonical)
    (hlt : binaryValue c e < (10 : ℚ) ^ 21) :
    renderPrice PriceData.null = "$0.00" ∧
    renderPrice PriceData.undefined = "$0.00" ∧
    renderPrice (PriceData.number (JSNumber.fin false 999 (-2))) = "$9.99" ∧
    renderPrice (PriceData.number (JSNumber.fin false 5 0)) = "$5.00" ∧
    renderPrice (PriceData.number (JSNumber.fin false 1005 (-3))) = "$1.00" ∧
    renderPrice (PriceData.number (JSNumber.fin false 2675 (-3))) = "$2.67" ∧
    (∃ ip d1 d2,
      renderPrice (PriceData.number (JSNumber.fin neg c e)) =
        String.mk ('$' :: ((if neg = true ∧ (binary64 c e).1 ≠ 0 then ['-'] else []) ++ ip ++
          ['.', d1, d2])) ∧
      ip ≠ [] ∧ (∀ ch ∈ ip, isDigit ch = true) ∧ isDigit d1 = true ∧ isDigit d2 = true ∧
      ((parseNat (ip ++ [d1, d2]) : ℚ) - 1 / 2 ≤ 100 * binaryValue c e ∧
       100 * binaryValue c e < (parseNat (ip ++ [d1, d2]) : ℚ) + 1 / 2)) ∧
    |(c : ℚ) * (10 : ℚ) ^ e - binaryValue c e| ≤ (2 : ℚ) ^ (binary64 c e).2 / 2 ∧
    (c ≠ 0 → (binary64 c e).1 ≤ 2 ^ 53 ∧ -1074 ≤ (binary64 c e).2 ∧
      ((binary64 c e).2 = -1074 ∨ 2 ^ 52 ≤ (binary64 c e).1)) := by
  refine ⟨rfl, rfl, by decide, by decide, by decide, by decide, ?_,
    binary64_nearest c e, binary64_precision c e⟩
  have h21 : atLeastTenPow21 (binary64 c e).1 (binary64 c e).2 = false := by
    rw [Bool.eq_false_iff, ne_eq, atLeastTenPow21_iff]
    exact not_le.2 hlt
  obtain ⟨ip, d1, d2, hfix, hne, hip, h1, h2, hval⟩ := toFixed2_shape neg c e h21
  refine ⟨ip, d1, d2, ?_, hne, hip, h1, h2, ?_⟩
  · rw [renderPrice_number _ hcan, hfix]
    rfl
  · rw [hval]
    exact roundHundredths_nearest (binary64 c e).1 (binary64 c e).2

/-- C4 at the price 9.99, whose binary64 value is 5623870034678907 × 2 ^ -49. -/
theorem C4_renderPrice_two_decimals_witness :
    (JSNumber.fin false 999 (-2)).Canonical ∧
    binary64 999 (-2) = (5623870034678907, -49) ∧
    ∃ ip d1 d2,
      renderPrice (PriceData.number (JSNumber.fin false 999 (-2))) =
        String.mk ('$' :: ((if false = true ∧ (binary64 999 (-2)).1 ≠ 0 then ['-'] else []) ++
          ip ++ ['.', d1, d2])) ∧
      ip ≠ [] ∧ (∀ ch ∈ ip, isDigit ch = true) ∧ isDigit d1 = true ∧ isDigit d2 = true ∧
      ((parseNat (ip ++ [d1, d2]) : ℚ) - 1 / 2 ≤ 100 * binaryValue 999 (-2) ∧
       100 * binaryValue 999 (-2) < (parseNat (ip ++ [d1, d2]) : ℚ) + 1 / 2) :=
  ⟨by decide, by decide,
    (C4_renderPrice_two_decimals false 999 (-2) (by decide) (by
      unfold binaryValue
      rw [show binary64 999 (-2) = (5623870034678907, -49) from by decide]
      norm_num)).2.2.2.2.2.2.1⟩

end ItemFlow
